import Mathlib

/-!
# Verification of the SakuraEDL framing and transport core

Shallow embedding, in Lean 4, of the COBS codec (`fh_cobs.c`), the HSUART
packet codec (`fh_hsuart_packet.c`), the HSUART transport fragmentation and
retry loops (`fh_transport_hsuart.c`), the XML reassembler and VIP injection
state machine (`fh_transfer.c`), and the transport dispatch (`fh_transport.c`).

Conventions used throughout:

* Machine bytes and `uint32` values are modelled as `Nat`; wraparound is made
  explicit (`% 256`, `% 2 ^ 32`) exactly where the C types make it possible.
* A source buffer with its declared length is modelled as a total function
  `Nat → Nat` (the bytes the C pointer can reach) plus an explicit length;
  the embedding instruments every read with an `oobRead` flag that records
  whether an index at or beyond the declared length was ever dereferenced.
* A destination buffer is a total function `Nat → Nat` updated pointwise; an
  `oobWrite` flag records writes at or beyond the declared capacity.
* `while` loops whose termination depends on data are given fuel (a `Nat`
  bound on iterations); running out of fuel yields `none`, and the theorems
  show concrete fuel bounds suffice where needed.
-/

namespace SakuraEDL

/-- Pointwise update of a buffer modelled as a function. -/
def updFn (f : Nat → Nat) (i v : Nat) : Nat → Nat := fun j => if j = i then v else f j

/-- The first `n` cells of a buffer, as a list. -/
def fnToList (f : Nat → Nat) (n : Nat) : List Nat := (List.range n).map f

/-- A list viewed as a buffer; cells beyond the list are zero (the theorems
about out-of-bounds behaviour make the choice of this default explicit). -/
def listFn (l : List Nat) : Nat → Nat := fun i => l.getD i 0

/-! ## COBS codec: `fh_cobs.c` -/

/-- `enum fh_cobs_error_t` from `fh_cobs.h`. -/
inductive CobsError
  | COBS_SUCCESS
  | COBS_ERROR_NULL_SRC_BUFFER
  | COBS_ERROR_NULL_DST_BUFFER
  | COBS_ERROR_INVALID_LENGTH
  | COBS_ERROR_INVALID_STUFFING
  | COBS_ERROR_DST_BUFFER_OVERFLOW
deriving DecidableEq, Repr

/-- Result of `fh_cobs_stuff_bytes`: the `*error` out-parameter, the returned
length, the destination buffer, and whether any write went to an offset at or
beyond `dst_length`. -/
structure CobsStuffOut where
  err : CobsError
  ret : Nat
  dst : Nat → Nat
  oobWrite : Bool

/-- Loop state of `fh_cobs_stuff_bytes`: the local variables of the C
function, with the two destination pointers kept as offsets into `dst`. -/
structure CobsStuffSt where
  index : Nat
  encoded_value : Nat
  encoded_value_ptr : Nat
  dest_value_ptr : Nat
  stuffed_length : Nat
  dst : Nat → Nat
  oobWrite : Bool

/-- A store `dst[off] = v`, recording whether it is out of bounds. -/
def cobsWr (dst_length : Nat) (st : CobsStuffSt) (off v : Nat) : CobsStuffSt :=
  { st with dst := updFn st.dst off v,
            oobWrite := st.oobWrite || decide (dst_length ≤ off) }

/-- The `while(index < src_length)` loop of `fh_cobs_stuff_bytes`
(`fh_cobs.c:122-165`), one constructor case per iteration. -/
def cobsStuffLoop (src : Nat → Nat) (src_length dst_length : Nat) :
    Nat → CobsStuffSt → Option CobsStuffOut
  | 0, _ => none
  | fuel + 1, st =>
    if st.index < src_length then
      let st1 :=
        if st.encoded_value = 0xFF then
          let stw := cobsWr dst_length st st.encoded_value_ptr st.encoded_value
          { stw with encoded_value := 0x01, encoded_value_ptr := st.dest_value_ptr }
        else
          let data_value := src st.index
          if data_value ≠ 0x00 then
            let stw := cobsWr dst_length st st.dest_value_ptr data_value
            { stw with encoded_value := st.encoded_value + 1, index := st.index + 1 }
          else
            let stw := cobsWr dst_length st st.encoded_value_ptr st.encoded_value
            { stw with encoded_value := 0x01, encoded_value_ptr := st.dest_value_ptr,
                       index := st.index + 1 }
      let st2 := { st1 with dest_value_ptr := st1.dest_value_ptr + 1,
                            stuffed_length := st1.stuffed_length + 1 }
      let st3 :=
        if st2.index = src_length then
          let stA := cobsWr dst_length st2 st2.encoded_value_ptr st2.encoded_value
          let stB := cobsWr dst_length stA st2.dest_value_ptr 0x00
          { stB with dest_value_ptr := stB.dest_value_ptr + 1,
                     stuffed_length := stB.stuffed_length + 1 }
        else st2
      if dst_length ≤ st3.stuffed_length ∧ st3.index < src_length then
        some ⟨.COBS_ERROR_DST_BUFFER_OVERFLOW, 0, st3.dst, st3.oobWrite⟩
      else
        cobsStuffLoop src src_length dst_length fuel st3
    else
      some ⟨.COBS_SUCCESS, st.stuffed_length, st.dst, st.oobWrite⟩

/-- `fh_cobs_stuff_bytes` (`fh_cobs.c:84-169`). `src`/`dst0` are the byte
functions behind the two pointers, `srcNull`/`dstNull` model NULL arguments.
The internal fuel `2 * src_length + 2` dominates the iteration count (each
iteration advances `index`, except the `0xFF` block-close which happens at
most once between advances). -/
def fh_cobs_stuff_bytes (srcNull dstNull : Bool) (src : Nat → Nat)
    (src_length : Nat) (dst0 : Nat → Nat) (dst_length : Nat) : Option CobsStuffOut :=
  if srcNull then some ⟨.COBS_ERROR_NULL_SRC_BUFFER, 0, dst0, false⟩
  else if dstNull then some ⟨.COBS_ERROR_NULL_DST_BUFFER, 0, dst0, false⟩
  else if src_length = 0 then some ⟨.COBS_ERROR_INVALID_LENGTH, 0, dst0, false⟩
  else if dst_length = 0 then some ⟨.COBS_ERROR_INVALID_LENGTH, 0, dst0, false⟩
  else
    -- memset(dst, 0x0, dst_length)
    let dstm : Nat → Nat := fun i => if i < dst_length then 0 else dst0 i
    cobsStuffLoop src src_length dst_length (2 * src_length + 2)
      ⟨0, 0x01, 0, 1, 1, dstm, false⟩

/-- Result of `fh_cobs_unstuff_bytes`, with both instrumentation flags. -/
structure CobsUnstuffOut where
  err : CobsError
  ret : Nat
  dst : Nat → Nat
  oobWrite : Bool
  oobRead : Bool

/-- Loop state of `fh_cobs_unstuff_bytes`: `srcBase` is the offset the C code
has accumulated into the `src` pointer (`src = src + index`), `index` is the
`unsigned char` cursor. The destination pointer equals `unstuffed_length`. -/
structure CobsUnstuffSt where
  srcBase : Nat
  index : Nat
  encoded_value : Nat
  unstuffed_length : Nat
  dst : Nat → Nat
  oobWrite : Bool
  oobRead : Bool

/-- The `while(1)` loop of `fh_cobs_unstuff_bytes` (`fh_cobs.c:222-265`). -/
def cobsUnstuffLoop (src : Nat → Nat) (src_length dst_length : Nat) :
    Nat → CobsUnstuffSt → Option CobsUnstuffOut
  | 0, _ => none
  | fuel + 1, st =>
    if dst_length ≤ st.unstuffed_length ∧ st.encoded_value ≠ 0x00 then
      some ⟨.COBS_ERROR_DST_BUFFER_OVERFLOW, 0, st.dst, st.oobWrite, st.oobRead⟩
    else if st.index ≠ st.encoded_value then
      let data_value := src (st.srcBase + st.index)
      let st1 := { st with
        dst := updFn st.dst st.unstuffed_length data_value,
        oobWrite := st.oobWrite || decide (dst_length ≤ st.unstuffed_length),
        oobRead := st.oobRead || decide (src_length ≤ st.srcBase + st.index),
        unstuffed_length := st.unstuffed_length + 1 }
      let index' := (st.index + 1) % 256
      if index' = 0 then
        some ⟨.COBS_ERROR_INVALID_STUFFING, 0, st1.dst, st1.oobWrite, st1.oobRead⟩
      else
        cobsUnstuffLoop src src_length dst_length fuel { st1 with index := index' }
    else
      let ev' := src (st.srcBase + st.index)
      let st1 := { st with
        oobRead := st.oobRead || decide (src_length ≤ st.srcBase + st.index) }
      if ev' = 0x00 then
        some ⟨.COBS_SUCCESS, st1.unstuffed_length, st1.dst, st1.oobWrite, st1.oobRead⟩
      else
        let st2 :=
          if st.index ≠ 0xFF then
            { st1 with dst := updFn st1.dst st1.unstuffed_length 0x00,
                       oobWrite := st1.oobWrite || decide (dst_length ≤ st1.unstuffed_length),
                       unstuffed_length := st1.unstuffed_length + 1 }
          else st1
        cobsUnstuffLoop src src_length dst_length fuel
          { st2 with srcBase := st2.srcBase + st.index, index := 1, encoded_value := ev' }

/-- `fh_cobs_unstuff_bytes` (`fh_cobs.c:190-268`). The loop terminates only
on data conditions, so the fuel is an explicit argument. Note the C code
reads `*src` before its NULL/length checks; the wrapper mirrors that by
flagging the initial read when `src_length = 0`. -/
def fh_cobs_unstuff_bytes (fuel : Nat) (srcNull dstNull : Bool) (src : Nat → Nat)
    (src_length : Nat) (dst0 : Nat → Nat) (dst_length : Nat) : Option CobsUnstuffOut :=
  let oobRead0 := decide (src_length = 0)
  if srcNull then some ⟨.COBS_ERROR_NULL_SRC_BUFFER, 0, dst0, false, oobRead0⟩
  else if dstNull then some ⟨.COBS_ERROR_NULL_DST_BUFFER, 0, dst0, false, oobRead0⟩
  else if src_length = 0 then some ⟨.COBS_ERROR_INVALID_LENGTH, 0, dst0, false, oobRead0⟩
  else if dst_length = 0 then some ⟨.COBS_ERROR_INVALID_LENGTH, 0, dst0, false, oobRead0⟩
  else
    cobsUnstuffLoop src src_length dst_length fuel ⟨0, 1, src 0, 0, dst0, false, oobRead0⟩

/-- Functional description of the byte stream `fh_cobs_stuff_bytes` produces:
`cobsEnc block rest` is the encoding of `rest` when the currently open block
already holds `block.reverse` (at most 254 nonzero bytes). The whole encoding
of `s` is `cobsEnc [] s`. -/
def cobsEnc : List Nat → List Nat → List Nat
  | block, [] => (block.length + 1) :: (block.reverse ++ [0x00])
  | block, b :: rest =>
    if block.length = 254 then
      0xFF :: block.reverse ++
        (if b = 0x00 then 0x01 :: cobsEnc [] rest else cobsEnc [b] rest)
    else if b = 0x00 then
      (block.length + 1) :: block.reverse ++ cobsEnc [] rest
    else
      cobsEnc (b :: block) rest

/-- The encoder output, block by block: each block is its length byte
(`length + 1`) followed by its data; the stream ends with the `0x00`
terminator. -/
def cobsBlocksEnc : List (List Nat) → List Nat
  | [] => [0x00]
  | d :: bs => (d.length + 1) :: (d ++ cobsBlocksEnc bs)

/-- What the unstuffer recovers from a block list: each non-final block
contributes its data plus an implicit `0x00`, except blocks of 254 data
bytes; the final block contributes only its data. -/
def cobsBlocksDec : List (List Nat) → List Nat
  | [] => []
  | [d] => d
  | d :: bs => d ++ (if d.length = 254 then [] else [0x00]) ++ cobsBlocksDec bs

/-- The block decomposition realized by `cobsEnc blk r`. -/
def blocksOf : List Nat → List Nat → List (List Nat)
  | blk, [] => [blk.reverse]
  | blk, b :: rest =>
    if blk.length = 254 then
      blk.reverse ::
        (if b = 0x00 then [] :: blocksOf [] rest else blocksOf [b] rest)
    else if b = 0x00 then
      blk.reverse :: blocksOf [] rest
    else
      blocksOf (b :: blk) rest

/-! ## HSUART packet codec: `fh_hsuart_packet.c` -/

/-- `enum fh_packet_error_t` from `fh_hsuart_packet.c`. -/
inductive PacketError
  | PACKET_SUCCESS
  | PACKET_ERROR_NULL_SRC_BUFFER
  | PACKET_ERROR_NULL_DST_BUFFER
  | PACKET_ERROR_INVALID_LENGTH
  | PACKET_ERROR_INVALID_PACKET_ID
  | PACKET_ERROR_CRC
  | PACKET_ERROR_VERSION_MISMATCH
  | PACKET_ERROR_DST_BUFFER_OVERFLOW
deriving DecidableEq, Repr

/-- `enum fh_packet_id_t` from `fh_packet_id.h`. -/
def PROTOCOL_PACKET : Nat := 0xF0

def END_OF_TRANSFER_PACKET : Nat := 0x55

def ACK_PACKET : Nat := 0x06

def NAK_PACKET : Nat := 0x09

def VERSION_PACKET : Nat := 0xAA

def READY_TO_READ_PACKET : Nat := 0x0F

def PACKET_ID_SIZE : Nat := 1

def VERSION_PACKET_SIZE : Nat := 2

def PACKET_LAYER_MAJOR_ID : Nat := 1

def PACKET_LAYER_MINOR_ID : Nat := 0

/-- Modelled from the spec: `fh_crc_calculate_crc16` is declared in `fh_crc.h`
but its implementation file (`fh_crc.c`) is not among the sources. The spec
says "CRC-16 is the CCITT variant (polynomial such that the value 0xE2F0 is
the residue when the trailing CRC is included in the checked region)". This is
the MSB-first CCITT CRC-16: polynomial `0x1021`, initial value `0xFFFF`, final
complement; combined with the big-endian serialization the packet codec uses,
recomputing over `data ++ crc_be(data)` yields exactly `CRC_16_OK = 0xE2F0`
(theorem `crc16_residue_e2f0` below). One step of the bit loop: -/
def crc16_bit (c : Nat) : Nat :=
  if c &&& 0x8000 ≠ 0 then ((c <<< 1) ^^^ 0x1021) &&& 0xFFFF
  else (c <<< 1) &&& 0xFFFF

/-- Eight bit steps after XOR-ing the byte into the high register byte. -/
def crc16_byte (c b : Nat) : Nat :=
  crc16_bit (crc16_bit (crc16_bit (crc16_bit (crc16_bit (crc16_bit (crc16_bit
    (crc16_bit (c ^^^ ((b &&& 0xFF) <<< 8)))))))))

/-- Modelled from the spec (see `crc16_bit`): `fh_crc_calculate_crc16`. -/
def fh_crc_calculate_crc16 (data : List Nat) : Nat :=
  (data.foldl crc16_byte 0xFFFF) ^^^ 0xFFFF

def CRC_16_OK : Nat := 0xE2F0

/-- `LITTLE_TO_BIG_SHORT` (`fh_hsuart_packet.c:42`), written with `% / *`
(`(x & 0xff) << 8 | (x >> 8) & 0xff` on a `uint16`). -/
def LITTLE_TO_BIG_SHORT (x : Nat) : Nat := (x % 256) * 256 + (x / 256) % 256

/-- A `uint16` stored through `memscpy(..., &crc_data, 2)` on a little-endian
host: low byte first. `IS_BIG_ENDIAN()` is false on the x86/ARM hosts this
loader targets, so the byte swap above always runs. -/
def u16_store_le (x : Nat) : List Nat := [x % 256, x / 256 % 256]

/-- A `uint16` read through `memscpy(&rx_crc_data, ..., 2)` on a little-endian
host. -/
def u16_load_le (b0 b1 : Nat) : Nat := b0 % 256 + (b1 % 256) * 256

/-- `memscpy` from `stringl/memscpy.c`: size-bounded copy of `src_size` bytes
into `dst` at offset `off` with `dst_size` bytes of room; returns the new
buffer and the copied size. -/
def memscpyFn (dst : Nat → Nat) (off dst_size : Nat) (srcBytes : List Nat)
    (src_size : Nat) : (Nat → Nat) × Nat :=
  let copy_size := if dst_size ≤ src_size then dst_size else src_size
  (fun i => if off ≤ i ∧ i < off + copy_size then srcBytes.getD (i - off) 0 else dst i,
    copy_size)

/-- `uint32` subtraction (used for the `dst_length - k` capacity arguments). -/
def u32sub (a b : Nat) : Nat := (a + 2 ^ 32 - b % 2 ^ 32) % 2 ^ 32

/-- Result of `fh_packet_encode`: error, returned length, destination. -/
structure PacketOut where
  err : PacketError
  ret : Nat
  dst : Nat → Nat

/-- `fh_packet_encode` (`fh_hsuart_packet.c:75-165`). `src` is the payload
buffer (its `src_length` bytes), `dst0` the destination buffer contents. -/
def fh_packet_encode (packet_id : Nat) (srcNull dstNull : Bool) (src : List Nat)
    (src_length : Nat) (dst0 : Nat → Nat) (dst_length : Nat) : PacketOut :=
  if dstNull then ⟨.PACKET_ERROR_NULL_DST_BUFFER, 0, dst0⟩
  else if packet_id = ACK_PACKET then
    ⟨.PACKET_SUCCESS, PACKET_ID_SIZE, updFn dst0 0 ACK_PACKET⟩
  else if packet_id = NAK_PACKET then
    ⟨.PACKET_SUCCESS, PACKET_ID_SIZE, updFn dst0 0 NAK_PACKET⟩
  else if packet_id = VERSION_PACKET then
    let d1 := updFn (updFn (updFn dst0 0 VERSION_PACKET) 1 PACKET_LAYER_MAJOR_ID)
      2 PACKET_LAYER_MINOR_ID
    let crc := fh_crc_calculate_crc16 (fnToList d1 (PACKET_ID_SIZE + VERSION_PACKET_SIZE))
    let crcw := LITTLE_TO_BIG_SHORT crc
    let d2 := (memscpyFn d1 (PACKET_ID_SIZE + VERSION_PACKET_SIZE)
      (u32sub dst_length (PACKET_ID_SIZE + VERSION_PACKET_SIZE)) (u16_store_le crcw) 2).1
    ⟨.PACKET_SUCCESS, PACKET_ID_SIZE + VERSION_PACKET_SIZE + 2, d2⟩
  else if packet_id = READY_TO_READ_PACKET then
    let d1 := updFn dst0 0 READY_TO_READ_PACKET
    let crc := fh_crc_calculate_crc16 (fnToList d1 PACKET_ID_SIZE)
    let crcw := LITTLE_TO_BIG_SHORT crc
    let d2 := (memscpyFn d1 PACKET_ID_SIZE (u32sub dst_length PACKET_ID_SIZE)
      (u16_store_le crcw) 2).1
    ⟨.PACKET_SUCCESS, PACKET_ID_SIZE + 2, d2⟩
  else if packet_id = PROTOCOL_PACKET ∨ packet_id = END_OF_TRANSFER_PACKET then
    if srcNull then ⟨.PACKET_ERROR_NULL_SRC_BUFFER, 0, dst0⟩
    else if src_length = 0 then ⟨.PACKET_ERROR_INVALID_LENGTH, 0, dst0⟩
    else
      let d1 := updFn dst0 0 packet_id
      let d2 := (memscpyFn d1 PACKET_ID_SIZE (u32sub dst_length PACKET_ID_SIZE)
        src src_length).1
      let crc := fh_crc_calculate_crc16 (fnToList d2 (PACKET_ID_SIZE + src_length))
      let crcw := LITTLE_TO_BIG_SHORT crc
      let d3 := (memscpyFn d2 (PACKET_ID_SIZE + src_length)
        (u32sub dst_length PACKET_ID_SIZE) (u16_store_le crcw) 2).1
      ⟨.PACKET_SUCCESS, PACKET_ID_SIZE + src_length + 2, d3⟩
  else ⟨.PACKET_ERROR_INVALID_PACKET_ID, 0, dst0⟩

/-- Result of `fh_packet_decode`: error, returned length, the `*packet_id`
out-parameter (`none` when the function returns without setting it), and the
destination buffer. -/
structure PacketDecodeOut where
  err : PacketError
  ret : Nat
  packet_id : Option Nat
  dst : Nat → Nat

/-- `fh_packet_decode` (`fh_hsuart_packet.c:185-346`). `src` is the received
buffer: exactly the `src_length` bytes at the source pointer. -/
def fh_packet_decode (srcNull dstNull : Bool) (src : List Nat)
    (dst0 : Nat → Nat) (dst_length : Nat) : PacketDecodeOut :=
  if srcNull then ⟨.PACKET_ERROR_NULL_SRC_BUFFER, 0, none, dst0⟩
  else if dstNull then ⟨.PACKET_ERROR_NULL_DST_BUFFER, 0, none, dst0⟩
  else if src.length = 0 then ⟨.PACKET_ERROR_INVALID_LENGTH, 0, none, dst0⟩
  else
    let b0 := src.getD 0 0
    if b0 = ACK_PACKET then
      if src.length ≠ 1 then ⟨.PACKET_ERROR_INVALID_LENGTH, 0, none, dst0⟩
      else ⟨.PACKET_SUCCESS, 0, some ACK_PACKET, dst0⟩
    else if b0 = NAK_PACKET then
      if src.length ≠ 1 then ⟨.PACKET_ERROR_INVALID_LENGTH, 0, none, dst0⟩
      else ⟨.PACKET_SUCCESS, 0, some NAK_PACKET, dst0⟩
    else if b0 = VERSION_PACKET then
      if src.length ≠ PACKET_ID_SIZE + VERSION_PACKET_SIZE + 2 then
        ⟨.PACKET_ERROR_INVALID_LENGTH, 0, none, dst0⟩
      else
        let crc := fh_crc_calculate_crc16
          (src.take (PACKET_ID_SIZE + VERSION_PACKET_SIZE))
        let rx := LITTLE_TO_BIG_SHORT (u16_load_le (src.getD 3 0) (src.getD 4 0))
        if rx ≠ crc then ⟨.PACKET_ERROR_CRC, 0, some VERSION_PACKET, dst0⟩
        else if src.getD 1 0 = PACKET_LAYER_MAJOR_ID ∧
            src.getD 2 0 = PACKET_LAYER_MINOR_ID then
          ⟨.PACKET_SUCCESS, 0, some VERSION_PACKET, dst0⟩
        else ⟨.PACKET_ERROR_VERSION_MISMATCH, 0, some VERSION_PACKET, dst0⟩
    else if b0 = PROTOCOL_PACKET ∨ b0 = END_OF_TRANSFER_PACKET then
      if src.length < PACKET_ID_SIZE + 2 then
        ⟨.PACKET_ERROR_INVALID_LENGTH, 0, some b0, dst0⟩
      else if dst_length < src.length - PACKET_ID_SIZE - 2 then
        ⟨.PACKET_ERROR_DST_BUFFER_OVERFLOW, 0, some b0, dst0⟩
      else
        let crc := fh_crc_calculate_crc16 (src.take (src.length - 2))
        let rx := LITTLE_TO_BIG_SHORT
          (u16_load_le (src.getD (src.length - 2) 0) (src.getD (src.length - 1) 0))
        if rx ≠ crc then ⟨.PACKET_ERROR_CRC, 0, some b0, dst0⟩
        else
          let d1 := (memscpyFn dst0 0 dst_length (src.drop PACKET_ID_SIZE)
            (src.length - PACKET_ID_SIZE - 2)).1
          ⟨.PACKET_SUCCESS, src.length - PACKET_ID_SIZE - 2, some b0, d1⟩
    else if b0 = READY_TO_READ_PACKET then
      if src.length ≠ PACKET_ID_SIZE + 2 then
        ⟨.PACKET_ERROR_INVALID_LENGTH, 0, some b0, dst0⟩
      else
        let crc := fh_crc_calculate_crc16 (src.take (src.length - 2))
        let rx := LITTLE_TO_BIG_SHORT (u16_load_le (src.getD 1 0) (src.getD 2 0))
        if rx ≠ crc then ⟨.PACKET_ERROR_CRC, 0, some b0, dst0⟩
        else ⟨.PACKET_SUCCESS, 0, some b0, dst0⟩
    else ⟨.PACKET_ERROR_INVALID_PACKET_ID, 0, none, dst0⟩

/-- `MAX_HSUART_PACKET_DATA_SIZE` (`fh_transport_hsuart.c:46`). -/
def MAX_HSUART_PACKET_DATA_SIZE : Nat := 4000

/-- `MAX_HSUART_PACKET_SIZE` (`fh_hsuart_packet.h`). -/
def MAX_HSUART_PACKET_SIZE : Nat := 4096

/-- One fragment attempted by `fh_transport_hsuart_write`: its packet id,
byte offset into the caller's buffer, `transfer_size`, and whether
`write_hsuart_packet` succeeds for it.  In an environment where every
transmitted packet is acknowledged, `write_hsuart_packet`
(`fh_transport_hsuart.c:885-909`) succeeds exactly when
`fh_hsuart_packet_encode` does. -/
structure HsFrame where
  id : Nat
  off : Nat
  size : Nat
  ok : Bool
  deriving DecidableEq, Repr

/-- The fragment sequence produced by the loop in `fh_transport_hsuart_write`
(`fh_transport_hsuart.c:1158-1183`), after `wait_for_ready_to_read_packet`
has succeeded.  `transfer_size` starts at `MAX_HSUART_PACKET_DATA_SIZE` and
`packet_id` at `PROTOCOL_PACKET`; both are reassigned exactly once, at the
iteration where `packet_count - packet_index == 1` (the final one). -/
def hsuartWriteFrames (s : List Nat) (write_len : Nat) : List HsFrame :=
  let packet_count := write_len / MAX_HSUART_PACKET_DATA_SIZE +
    (if write_len % MAX_HSUART_PACKET_DATA_SIZE = 0 then 0 else 1)
  (List.range packet_count).map fun packet_index =>
    if packet_count - packet_index = 1 then
      { id := END_OF_TRANSFER_PACKET,
        off := packet_index * MAX_HSUART_PACKET_DATA_SIZE,
        size := write_len % MAX_HSUART_PACKET_DATA_SIZE,
        ok := decide ((fh_packet_encode END_OF_TRANSFER_PACKET false false
          ((s.drop (packet_index * MAX_HSUART_PACKET_DATA_SIZE)).take
            (write_len % MAX_HSUART_PACKET_DATA_SIZE))
          (write_len % MAX_HSUART_PACKET_DATA_SIZE)
          (fun _ => 0) MAX_HSUART_PACKET_SIZE).err = .PACKET_SUCCESS) }
    else
      { id := PROTOCOL_PACKET,
        off := packet_index * MAX_HSUART_PACKET_DATA_SIZE,
        size := MAX_HSUART_PACKET_DATA_SIZE,
        ok := decide ((fh_packet_encode PROTOCOL_PACKET false false
          ((s.drop (packet_index * MAX_HSUART_PACKET_DATA_SIZE)).take
            MAX_HSUART_PACKET_DATA_SIZE)
          MAX_HSUART_PACKET_DATA_SIZE
          (fun _ => 0) MAX_HSUART_PACKET_SIZE).err = .PACKET_SUCCESS) }

/-- `fh_transport_hsuart_write` observable outcome: accumulated
`*bytes_written` (incremented by `transfer_size` only for fragments whose
`write_hsuart_packet` succeeded) and the `*bytes_written > 0` return value. -/
def fh_transport_hsuart_write_model (s : List Nat) (write_len : Nat) :
    Nat × Bool :=
  let frames := hsuartWriteFrames s write_len
  let bw := frames.foldl (fun acc f => acc + (if f.ok then f.size else 0)) 0
  (bw, decide (0 < bw))

/-- VIP states (`fh_transfer.c:43-49`). -/
inductive VipState where
  | VIP_DISABLED
  | VIP_INIT
  | VIP_SEND_NEXT_TABLE
  | VIP_SEND_DATA
  deriving DecidableEq, Repr

/-- The VIP fields of `struct fh_transfer_data` (`fh_transfer.c:52-60`)
that `fh_tx_blocking` touches. -/
structure VipData where
  state : VipState
  frame_sent : Nat
  frames_to_next_table : Nat
  deriving DecidableEq, Repr

/-- Observable transmissions of one `fh_tx_blocking` call. -/
inductive VipEvent where
  | signedTable
  | chainedTable
  | dataFrame
  deriving DecidableEq, Repr

/-- `VIP_CHAINED_TABLE_SIZE` (`fh_transfer.c:41`). -/
def VIP_CHAINED_TABLE_SIZE : Nat := 8192

/-- `fh_tx_blocking` (`fh_transfer.c:546-593`) on the VIP state, in the
environment where every table and data transmission succeeds (is
acknowledged): the new state and the transmissions made by the call. -/
def fh_tx_blocking_model (v : VipData) : VipData × List VipEvent :=
  if v.state = .VIP_DISABLED then (v, [.dataFrame])
  else
    let v1 : VipData :=
      if v.state = .VIP_INIT then ⟨.VIP_SEND_DATA, 0, 53⟩ else v
    let e1 : List VipEvent :=
      if v.state = .VIP_INIT then [.signedTable] else []
    let v2 : VipData :=
      if v1.state = .VIP_SEND_NEXT_TABLE then
        ⟨.VIP_SEND_DATA, 0, VIP_CHAINED_TABLE_SIZE / 32 - 1⟩
      else v1
    let e2 : List VipEvent :=
      if v1.state = .VIP_SEND_NEXT_TABLE then [.chainedTable] else []
    let fs := v2.frame_sent + 1
    let st : VipState :=
      if v2.frames_to_next_table ≤ fs then .VIP_SEND_NEXT_TABLE else v2.state
    (⟨st, fs, v2.frames_to_next_table⟩, e1 ++ e2 ++ [.dataFrame])

/-- The VIP state `fh_transfer_vip` leaves behind
(`fh_transfer.c:614-615,649`): `VIP_INIT` with `frame_sent = 0` and
`frames_to_next_table = 53`. -/
def vipInit : VipData := ⟨.VIP_INIT, 0, 53⟩

/-- State after `n` successful `fh_tx_blocking` calls starting from
`vipInit`. -/
def vipAfter : Nat → VipData
  | 0 => vipInit
  | n + 1 => (fh_tx_blocking_model (vipAfter n)).1

/-- Closed form of `vipAfter`. -/
def vipAfterClosed (n : Nat) : VipData :=
  if n = 0 then ⟨.VIP_INIT, 0, 53⟩
  else if n ≤ 52 then ⟨.VIP_SEND_DATA, n, 53⟩
  else if n = 53 then ⟨.VIP_SEND_NEXT_TABLE, 53, 53⟩
  else if (n - 54) % 255 = 254 then ⟨.VIP_SEND_NEXT_TABLE, 255, 255⟩
  else ⟨.VIP_SEND_DATA, (n - 54) % 255 + 1, 255⟩

/-- `enum firehose_errors` / `fh_res_t` (`fh_comdef.h:53-70`). -/
inductive FhRes where
  | SUCCESS
  | INVALID_PARAMETER
  | NOT_SUPPORTED
  | TRANSPORT_TIMEOUT
  | OPEN_PORT_FAILED
  | CLOSE_PORT_ERROR
  | READ_PORT_TIMEOUT
  | READ_PORT_ERROR
  | WRITE_PORT_TIMEOUT
  | WRITE_PORT_ERROR
  | NOT_INITALIZED
  | SET_TIMEOUT_ERROR
  | FILE_IO
  | NO_MEMORY
  | TARGET_NAK
  deriving DecidableEq, Repr

/-- The `do … while` of `fh_transport_hsuart_rx_blocking`
(`fh_transport_hsuart.c:1191-1214`).  The oracle gives the `*bytes_rx`
value each `fh_transport_hsuart_read` call produces; the read's return
value is exactly `*bytes_read > 0` (`fh_transport_hsuart.c:1058`), so the
`if(!read(...) != 0)` guard — which parses as `(!read(...)) != 0` and fires
when the read returns 0 — fires exactly when the attempt produced 0 bytes.
`retry` is the countdown (entered at 100); the second component of the
result counts read attempts performed. -/
def rxGo (oracle : Nat → Nat) : Nat → Nat → FhRes × Nat
  | 0, attempt => (.READ_PORT_ERROR, attempt)
  | retry + 1, attempt =>
    if oracle attempt = 0 then (.READ_PORT_ERROR, attempt + 1)
    else if retry = 0 then (.READ_PORT_ERROR, attempt + 1)
    else if oracle attempt = 0 then rxGo oracle retry (attempt + 1)
    else (.SUCCESS, attempt + 1)

/-- `fh_transport_hsuart_rx_blocking`: the loop entered with `retry = 100`. -/
def fh_transport_hsuart_rx_blocking_model (oracle : Nat → Nat) :
    FhRes × Nat :=
  rxGo oracle 100 0

/-- The bytes one `fh_transport_hsuart_write` call adds to the accumulated
`bytes_written` (`fh_transport_hsuart.c:1165-1183`): the sum of
`transfer_size` over the fragments of that write whose encode succeeded
(`HsFrame.ok`) and whose transmit/ack round succeeded (`envA`, the
environment's outcome for each fragment index; a failed
`wait_for_ready_to_read_packet` is the all-`false` `envA`). -/
def txAttemptAdd (frames : List HsFrame) (envA : Nat → Bool) : Nat :=
  frames.enum.foldl
    (fun acc p => acc + (if envA p.1 && p.2.ok then p.2.size else 0)) 0

/-- The `do … while` of `fh_transport_hsuart_tx_blocking`
(`fh_transport_hsuart.c:1216-1239`): `adds attempt` is the progress of the
`attempt`-th `fh_transport_hsuart_write` call, and the write's return value
is `bytes_written > 0` on the accumulated counter
(`fh_transport_hsuart.c:1189`), so the error guard fires exactly when the
accumulated count is still 0.  Note both failure paths return
`READ_PORT_ERROR`. -/
def txGo (adds : Nat → Nat) (size : Nat) : Nat → Nat → Nat → FhRes × Nat
  | 0, _, attempt => (.READ_PORT_ERROR, attempt)
  | retry + 1, bw, attempt =>
    let bw' := bw + adds attempt
    if bw' = 0 then (.READ_PORT_ERROR, attempt + 1)
    else if retry = 0 then (.READ_PORT_ERROR, attempt + 1)
    else if bw' < size then txGo adds size retry bw' (attempt + 1)
    else (.SUCCESS, attempt + 1)

/-- `fh_transport_hsuart_tx_blocking` on buffer `s`: the loop entered with
`retry = 100`, `bytes_written = 0`, with each attempt's progress derived
from the actual fragmentation of the buffer (`hsuartWriteFrames`) and the
environment's per-fragment transmit/ack outcomes `env`. -/
def fh_transport_hsuart_tx_blocking_model (s : List Nat) (size : Nat)
    (env : Nat → Nat → Bool) : FhRes × Nat :=
  txGo (fun attempt => txAttemptAdd (hsuartWriteFrames s size) (env attempt))
    size 100 0 0

/-- Loop 1 of `response_xml_parse` (`fh_transfer.c:77-86`): scan for
`<data>` from `offset` with the short-circuit `xml[offset++] == c`
increments.  Returns the offset after the loop (`none` = out of fuel). -/
def scanData (xml : Nat → Nat) (last : Nat) : Nat → Nat → Option Nat
  | 0, _ => none
  | f + 1, off =>
    if off < last then
      if xml off ≠ 60 then scanData xml last f (off + 1)
      else if xml (off + 1) ≠ 100 then scanData xml last f (off + 2)
      else if xml (off + 2) ≠ 97 then scanData xml last f (off + 3)
      else if xml (off + 3) ≠ 116 then scanData xml last f (off + 4)
      else if xml (off + 4) ≠ 97 then scanData xml last f (off + 5)
      else if xml (off + 5) ≠ 62 then scanData xml last f (off + 6)
      else some (off + 6)
    else some off

/-- Loops 2/3 of `response_xml_parse` (`fh_transfer.c:89-104`): advance to
the next byte equal to `target` (`<` resp. the space); `some none` models
the `return 0` when `offset` passes `last_offset`. -/
def scanTo (xml : Nat → Nat) (last target : Nat) : Nat → Nat → Option (Option Nat)
  | 0, _ => none
  | f + 1, off =>
    if xml off = target then some (some off)
    else if off + 1 > last then some none
    else scanTo xml last target f (off + 1)

/-- Loop 4 of `response_xml_parse` (`fh_transfer.c:110-123`): scan for the
closing `/>` while recording the last `value="` occurrence.  Returns the
offset after the loop and the recorded `*value` offset. -/
def scanClose (xml : Nat → Nat) (last : Nat) :
    Nat → Nat → Option Nat → Option (Nat × Option Nat)
  | 0, _, _ => none
  | f + 1, off, v =>
    if off < last then
      if xml off = 118 ∧ xml (off + 1) = 97 ∧ xml (off + 2) = 108 ∧
          xml (off + 3) = 117 ∧ xml (off + 4) = 101 ∧ xml (off + 5) = 61 ∧
          xml (off + 6) = 34 then
        scanClose xml last f (off + 7) (some (off + 7))
      else if xml off ≠ 47 then scanClose xml last f (off + 1) v
      else if xml (off + 1) ≠ 62 then scanClose xml last f (off + 2) v
      else some (off + 2, v)
    else some (off, v)

/-- Loop 5 of `response_xml_parse` (`fh_transfer.c:125-135`): scan for
`</data>`; `some (some r)` models `return r` (`r` is the offset just past
`</data>`), `some none` the final `return 0`. -/
def scanEnd (xml : Nat → Nat) (last : Nat) : Nat → Nat → Option (Option Nat)
  | 0, _ => none
  | f + 1, off =>
    if off ≤ last then
      if xml off ≠ 60 then scanEnd xml last f (off + 1)
      else if xml (off + 1) ≠ 47 then scanEnd xml last f (off + 2)
      else if xml (off + 2) ≠ 100 then scanEnd xml last f (off + 3)
      else if xml (off + 3) ≠ 97 then scanEnd xml last f (off + 4)
      else if xml (off + 4) ≠ 116 then scanEnd xml last f (off + 5)
      else if xml (off + 5) ≠ 97 then scanEnd xml last f (off + 6)
      else if xml (off + 6) ≠ 62 then scanEnd xml last f (off + 7)
      else some (some (off + 7))
    else some none

/-- `response_xml_parse` (`fh_transfer.c:67-138`): returns the envelope
length (0 = incomplete) and the `*tag` / `*value` out-pointers as offsets.
Outer `none` = out of fuel. -/
def response_xml_parse (fuel : Nat) (xml : Nat → Nat) (xml_size : Nat) :
    Option (Nat × Option Nat × Option Nat) :=
  if xml_size < 12 then some (0, none, none)
  else
    match scanData xml (xml_size - 7) fuel 6 with
    | none => none
    | some offA =>
      match scanTo xml (xml_size - 7) 60 fuel offA with
      | none => none
      | some none => some (0, none, none)
      | some (some offLt) =>
        match scanTo xml (xml_size - 7) 32 fuel (offLt + 1) with
        | none => none
        | some none => some (0, some (offLt + 1), none)
        | some (some offSp) =>
          match scanClose xml (xml_size - 7) fuel (offSp + 1) none with
          | none => none
          | some (offD, v) =>
            match scanEnd xml (xml_size - 7) fuel offD with
            | none => none
            | some none => some (0, some (offLt + 1), v)
            | some (some ret) => some (ret, some (offLt + 1), v)

/-- The quote-terminating scan of the `log` branch
(`fh_transfer.c:463-472`): from `end = value` up to `xml_size - 7`, zero
the first `"` byte. -/
def quoteZeroLoop (stop : Nat) : Nat → List Nat → Nat → List Nat
  | 0, buf, _ => buf
  | f + 1, buf, e =>
    if e < stop then
      if buf.getD e 0 = 34 then buf.set e 0
      else quoteZeroLoop stop f buf (e + 1)
    else buf

/-- Outcome of one envelope dispatch inside `fh_rx_blocking_response_xml`
(`fh_transfer.c:452-496`): `ret = some r` means the function returns `r`;
`none` means the `do … while` continues.  `buf` is the scratch
`fh_rx_buffer` contents (its `fh_rx_buffer_bytes` valid bytes) after the
dispatch, `dst` the caller's buffer. -/
structure RxDispatchOut where
  ret : Option FhRes
  bytes_read : Nat
  buf : List Nat
  dst : Nat → Nat

/-- The tag dispatch of `fh_rx_blocking_response_xml` on a parsed envelope
(`fh_transfer.c:452-496`): the `log` branch zeroes the closing quote of the
value (when present) and shifts the envelope out; the `response` branch
`memscpy`s the whole envelope into the caller's buffer, failing with
`INVALID_PARAMETER` when fewer than `xml_size` bytes were copied; any other
tag falls through to the timeout check. -/
def fh_rx_dispatch (buf : List Nat) (dst0 : Nat → Nat)
    (size xml_size tagOff : Nat) (vOff : Option Nat) (fuel : Nat) :
    RxDispatchOut :=
  if (buf.drop tagOff).take 3 = [108, 111, 103] then
    match vOff with
    | none => ⟨none, 0, buf.drop xml_size, dst0⟩
    | some v => ⟨none, 0, (quoteZeroLoop (xml_size - 7) fuel buf v).drop xml_size,
        dst0⟩
  else if (buf.drop tagOff).take 8 = [114, 101, 115, 112, 111, 110, 115, 101] then
    let copied := if size ≤ xml_size then size else xml_size
    let dst1 := (memscpyFn dst0 0 size buf xml_size).1
    if copied < xml_size then ⟨some .INVALID_PARAMETER, 0, buf, dst1⟩
    else ⟨some .SUCCESS, xml_size, buf.drop xml_size, dst1⟩
  else ⟨none, 0, buf, dst0⟩

/-- `ONE_MEGA_BYTE` (`fh_transport_hsuart.c:48`). -/
def ONE_MEGA_BYTE : Nat := 1024 * 1024

/-- The HSUART receive ring state (`fh_transport_hsuart.c:51-56`):
`start_ptr` and `end_ptr` as offsets from `fh_transport_hsuart_buffered_data`
plus the `uint32` `buffered_length`. -/
structure Ring where
  startOff : Nat
  endOff : Nat
  len : Nat
  deriving DecidableEq, Repr

/-- The initial globals: both pointers at the base, length 0. -/
def ringInit : Ring := ⟨0, 0, 0⟩

/-- `add_data_to_buffer` (`fh_transport_hsuart.c:1076-1093`).  The guard
`length < ONE_MEGA_BYTE - buffered_length - (end_ptr - base)` computes
`int - uint32` as `uint32` (hence `u32sub`), then subtracts the `long`
pointer difference and compares over the signed 64-bit domain, modelled in
`ℤ`.  On success `end_ptr += length` and the `uint32` length accumulates
mod `2^32`. -/
def add_data_to_buffer_model (st : Ring) (length : Nat) : Ring × Bool :=
  if (length : ℤ) < (u32sub ONE_MEGA_BYTE st.len : ℤ) - (st.endOff : ℤ) then
    (⟨st.startOff, st.endOff + length, (st.len + length) % 2 ^ 32⟩, true)
  else (st, false)

/-- `get_data_from_buffer` (`fh_transport_hsuart.c:979-1006`): when fewer
bytes are requested than buffered, advance `start_ptr` and shrink the
length; otherwise return everything and reset both pointers to the base. -/
def get_data_from_buffer_model (st : Ring) (requested : Nat) : Ring × Nat :=
  if requested < st.len then
    (⟨st.startOff + requested, st.endOff, u32sub st.len requested⟩, requested)
  else
    (⟨0, 0, 0⟩, st.len)

/-- One ring operation: a buffered-store or a fetch. -/
inductive RingOp where
  | add (length : Nat)
  | get (requested : Nat)

/-- The `uint32` argument of an operation. -/
def RingOp.arg : RingOp → Nat
  | .add l => l
  | .get r => r

def ringStep (st : Ring) : RingOp → Ring
  | .add l => (add_data_to_buffer_model st l).1
  | .get r => (get_data_from_buffer_model st r).1

def ringRun (st : Ring) (ops : List RingOp) : Ring := ops.foldl ringStep st

/-- The ring invariant of the claim: the buffered length is the pointer
difference and the pointers stay ordered within the 1 MiB array. -/
def RingInv (st : Ring) : Prop :=
  st.len = st.endOff - st.startOff ∧ st.startOff ≤ st.endOff ∧
    st.endOff ≤ ONE_MEGA_BYTE

instance (st : Ring) : Decidable (RingInv st) := by
  unfold RingInv
  infer_instance

/-- `enum fh_transport_type` (`fh_transfer.h`). -/
inductive TransportType where
  | FH_TRANSPORT_NONE
  | FH_TRANSPORT_COM
  | FH_TRANSPORT_HSUART
  | FH_TRANSPORT_VIP
  | FH_TRANSPORT_LINUX_PIPE_TEST
  | FH_TRANSPORT_MAX
  deriving DecidableEq, Repr

/-- The process-wide transport state (`fh_transport.c:35-36`):
`session_transport_type` (the `transport` ops pointer always tracks it, so
it is not modelled separately). -/
structure TransportSt where
  session_transport_type : TransportType
  deriving DecidableEq, Repr

/-- Observable side effect of a transport-layer call: an invocation of the
selected transport's `close` operation. -/
inductive TransportEvent where
  | closeOp
  deriving DecidableEq, Repr

/-- `fh_transport_init` (`fh_transport.c:40-73`): refuses to change the
transport at runtime, rejects `NONE`/`VIP`/`MAX`, otherwise selects the
transport and records the type. -/
def fh_transport_init_model (st : TransportSt) (ty : TransportType) :
    TransportSt × FhRes :=
  if st.session_transport_type ≠ .FH_TRANSPORT_NONE then
    (st, .INVALID_PARAMETER)
  else
    match ty with
    | .FH_TRANSPORT_NONE => (st, .INVALID_PARAMETER)
    | .FH_TRANSPORT_COM => (⟨.FH_TRANSPORT_COM⟩, .SUCCESS)
    | .FH_TRANSPORT_HSUART => (⟨.FH_TRANSPORT_HSUART⟩, .SUCCESS)
    | .FH_TRANSPORT_VIP => (st, .INVALID_PARAMETER)
    | .FH_TRANSPORT_LINUX_PIPE_TEST =>
      (⟨.FH_TRANSPORT_LINUX_PIPE_TEST⟩, .SUCCESS)
    | .FH_TRANSPORT_MAX => (st, .INVALID_PARAMETER)

/-- `fh_transport_deinit` (`fh_transport.c:80-86`): its whole body is the
`NONE` check and `return SUCCESS` — it writes no global and calls no
transport operation (the event list is its calls to the selected
transport's ops). -/
def fh_transport_deinit_model (st : TransportSt) :
    TransportSt × FhRes × List TransportEvent :=
  if st.session_transport_type = .FH_TRANSPORT_NONE then
    (st, .NOT_INITALIZED, [])
  else (st, .SUCCESS, [])

/-- A later call into the init/deinit API. -/
inductive TOp where
  | init (ty : TransportType)
  | deinit

def tStep (st : TransportSt) : TOp → TransportSt
  | .init ty => (fh_transport_init_model st ty).1
  | .deinit => (fh_transport_deinit_model st).1

def tRun (st : TransportSt) (ops : List TOp) : TransportSt := ops.foldl tStep st

theorem updFn_eq (f : Nat → Nat) (i v : Nat) : updFn f i v i = v := by simp [updFn]

theorem updFn_ne (f : Nat → Nat) (i v j : Nat) (h : j ≠ i) : updFn f i v j = f j := by
  simp [updFn, h]

theorem cobsBlocksDec_cons_of_ne_nil (d : List Nat) (bs : List (List Nat)) (h : bs ≠ []) :
    cobsBlocksDec (d :: bs) =
      d ++ (if d.length = 254 then [] else [0x00]) ++ cobsBlocksDec bs := by
  cases bs with
  | nil => exact absurd rfl h
  | cons d' bs' => rfl

theorem cobsEnc_eq_blocks (r : List Nat) :
    ∀ blk : List Nat, cobsEnc blk r = cobsBlocksEnc (blocksOf blk r) := by
  induction r with
  | nil => intro blk; simp [cobsEnc, blocksOf, cobsBlocksEnc]
  | cons b rest ih =>
    intro blk
    by_cases h254 : blk.length = 254
    · by_cases hb : b = 0x00
      · simp [cobsEnc, blocksOf, cobsBlocksEnc, h254, hb, ih]
      · simp [cobsEnc, blocksOf, cobsBlocksEnc, h254, hb, ih]
    · by_cases hb : b = 0x00
      · simp [cobsEnc, blocksOf, cobsBlocksEnc, h254, hb, ih]
      · simp [cobsEnc, blocksOf, h254, hb, ih]

theorem blocksOf_ne_nil (r : List Nat) : ∀ blk, blocksOf blk r ≠ [] := by
  induction r with
  | nil => intro blk; simp [blocksOf]
  | cons b rest ih =>
    intro blk
    by_cases h254 : blk.length = 254 <;> by_cases hb : b = 0x00 <;>
      simp [blocksOf, h254, hb, ih]

theorem blocksOf_wf (r : List Nat) :
    ∀ blk, blk.length ≤ 254 → ∀ d ∈ blocksOf blk r, d.length ≤ 254 := by
  induction r with
  | nil =>
    intro blk hblk d hd
    simp [blocksOf] at hd
    simpa [hd] using hblk
  | cons b rest ih =>
    intro blk hblk d hd
    by_cases h254 : blk.length = 254
    · by_cases hb : b = 0x00
      · simp [blocksOf, h254, hb] at hd
        rcases hd with hd | hd | hd
        · simpa [hd] using hblk
        · simp [hd]
        · exact ih [] (by simp) d hd
      · simp [blocksOf, h254, hb] at hd
        rcases hd with hd | hd
        · simpa [hd] using hblk
        · exact ih [b] (by simp) d hd
    · by_cases hb : b = 0x00
      · simp [blocksOf, h254, hb] at hd
        rcases hd with hd | hd
        · simpa [hd] using hblk
        · exact ih [] (by simp) d hd
      · simp [blocksOf, h254, hb] at hd
        exact ih (b :: blk) (by simp; omega) d hd

theorem cobsBlocksDec_blocksOf (r : List Nat) :
    ∀ blk, cobsBlocksDec (blocksOf blk r) = blk.reverse ++ r := by
  induction r with
  | nil => intro blk; simp [blocksOf, cobsBlocksDec]
  | cons b rest ih =>
    intro blk
    by_cases h254 : blk.length = 254
    · by_cases hb : b = 0x00
      · have h1 : blocksOf blk (b :: rest) = blk.reverse :: [] :: blocksOf [] rest := by
          simp [blocksOf, h254, hb]
        rw [h1]
        have h2 : ([] :: blocksOf [] rest) ≠ [] := by simp
        rw [cobsBlocksDec_cons_of_ne_nil _ _ (by simp),
            cobsBlocksDec_cons_of_ne_nil _ _ (blocksOf_ne_nil rest [])]
        simp [ih, h254, hb]
      · have h1 : blocksOf blk (b :: rest) = blk.reverse :: blocksOf [b] rest := by
          simp [blocksOf, h254, hb]
        rw [h1, cobsBlocksDec_cons_of_ne_nil _ _ (blocksOf_ne_nil rest [b])]
        simp [ih, h254, hb]
    · by_cases hb : b = 0x00
      · have h1 : blocksOf blk (b :: rest) = blk.reverse :: blocksOf [] rest := by
          simp [blocksOf, h254, hb]
        rw [h1, cobsBlocksDec_cons_of_ne_nil _ _ (blocksOf_ne_nil rest [])]
        simp [ih, h254, hb]
      · have h1 : blocksOf blk (b :: rest) = blocksOf (b :: blk) rest := by
          simp [blocksOf, h254, hb]
        rw [h1, ih]
        simp

theorem cobsEnc_length_ge (r : List Nat) :
    ∀ blk : List Nat, blk.length + 2 ≤ (cobsEnc blk r).length := by
  induction r with
  | nil => intro blk; simp [cobsEnc]
  | cons b rest ih =>
    intro blk
    by_cases h254 : blk.length = 254
    · by_cases hb : b = 0x00
      · have := ih ([] : List Nat)
        simp [cobsEnc, h254, hb]; omega
      · have := ih [b]
        simp [cobsEnc, h254, hb]; omega
    · by_cases hb : b = 0x00
      · have := ih ([] : List Nat)
        simp [cobsEnc, h254, hb]; omega
      · have := ih (b :: blk)
        simp only [cobsEnc, if_neg h254, if_neg hb]
        simp at this; omega

/-- The encoded stream is a zero-free body followed by the single
`0x00` terminator. -/
theorem cobsEnc_body (r : List Nat) :
    ∀ blk : List Nat, (∀ x ∈ blk, x ≠ 0) →
    ∃ body : List Nat, cobsEnc blk r = body ++ [0x00] ∧ ∀ x ∈ body, x ≠ 0 := by
  induction r with
  | nil =>
    intro blk hblk
    refine ⟨(blk.length + 1) :: blk.reverse, by simp [cobsEnc], ?_⟩
    intro x hx
    rcases List.mem_cons.mp hx with h | h
    · omega
    · exact hblk x (List.mem_reverse.mp h)
  | cons b rest ih =>
    intro blk hblk
    by_cases h254 : blk.length = 254
    · by_cases hb : b = 0x00
      · obtain ⟨body, hbody, hnz⟩ := ih [] (by simp)
        refine ⟨0xFF :: blk.reverse ++ 0x01 :: body, ?_, ?_⟩
        · simp [cobsEnc, h254, hb, hbody]
        · intro x hx
          rcases List.mem_cons.mp hx with h | h
          · omega
          · rcases List.mem_append.mp h with h | h
            · exact hblk x (List.mem_reverse.mp h)
            · rcases List.mem_cons.mp h with h | h
              · omega
              · exact hnz x h
      · obtain ⟨body, hbody, hnz⟩ := ih [b] (by simpa using hb)
        refine ⟨0xFF :: blk.reverse ++ body, ?_, ?_⟩
        · simp [cobsEnc, h254, hb, hbody]
        · intro x hx
          rcases List.mem_cons.mp hx with h | h
          · omega
          · rcases List.mem_append.mp h with h | h
            · exact hblk x (List.mem_reverse.mp h)
            · exact hnz x h
    · by_cases hb : b = 0x00
      · obtain ⟨body, hbody, hnz⟩ := ih [] (by simp)
        refine ⟨(blk.length + 1) :: blk.reverse ++ body, ?_, ?_⟩
        · simp [cobsEnc, h254, hb, hbody]
        · intro x hx
          rcases List.mem_cons.mp hx with h | h
          · omega
          · rcases List.mem_append.mp h with h | h
            · exact hblk x (List.mem_reverse.mp h)
            · exact hnz x h
      · have hblk' : ∀ x ∈ (b :: blk), x ≠ 0 := by
          intro x hx
          rcases List.mem_cons.mp hx with h | h
          · simpa [h] using hb
          · exact hblk x h
        obtain ⟨body, hbody, hnz⟩ := ih (b :: blk) hblk'
        exact ⟨body, by simpa [cobsEnc, h254, hb] using hbody, hnz⟩

/-! Step lemmas for the `fh_cobs_stuff_bytes` loop: each describes one
iteration of the C `while` loop under the branch conditions that select it. -/

theorem cobsStuffLoop_exit (src : Nat → Nat) (src_length dst_length fuel : Nat)
    (st : CobsStuffSt) (h : ¬ st.index < src_length) :
    cobsStuffLoop src src_length dst_length (fuel + 1) st =
      some ⟨.COBS_SUCCESS, st.stuffed_length, st.dst, st.oobWrite⟩ := by
  simp [cobsStuffLoop, h]

theorem cobsStuffLoop_step_ff (src : Nat → Nat) (src_length dst_length fuel : Nat)
    (st : CobsStuffSt) (h1 : st.index < src_length) (hff : st.encoded_value = 0xFF)
    (hcap : st.stuffed_length + 1 < dst_length) :
    cobsStuffLoop src src_length dst_length (fuel + 1) st =
      cobsStuffLoop src src_length dst_length fuel
        { index := st.index, encoded_value := 0x01,
          encoded_value_ptr := st.dest_value_ptr,
          dest_value_ptr := st.dest_value_ptr + 1,
          stuffed_length := st.stuffed_length + 1,
          dst := updFn st.dst st.encoded_value_ptr st.encoded_value,
          oobWrite := st.oobWrite || decide (dst_length ≤ st.encoded_value_ptr) } := by
  have hne : st.index ≠ src_length := Nat.ne_of_lt h1
  simp only [cobsStuffLoop, cobsWr, if_pos h1, if_pos hff]
  simp only [if_neg hne]
  rw [if_neg (by omega)]

theorem cobsStuffLoop_step_data (src : Nat → Nat) (src_length dst_length fuel : Nat)
    (st : CobsStuffSt) (h1 : st.index < src_length) (hff : ¬ st.encoded_value = 0xFF)
    (hd : src st.index ≠ 0x00) (hlast : ¬ st.index + 1 = src_length)
    (hcap : st.stuffed_length + 1 < dst_length) :
    cobsStuffLoop src src_length dst_length (fuel + 1) st =
      cobsStuffLoop src src_length dst_length fuel
        { index := st.index + 1, encoded_value := st.encoded_value + 1,
          encoded_value_ptr := st.encoded_value_ptr,
          dest_value_ptr := st.dest_value_ptr + 1,
          stuffed_length := st.stuffed_length + 1,
          dst := updFn st.dst st.dest_value_ptr (src st.index),
          oobWrite := st.oobWrite || decide (dst_length ≤ st.dest_value_ptr) } := by
  simp only [cobsStuffLoop, cobsWr, if_pos h1, if_neg hff, if_pos hd]
  simp only [if_neg hlast]
  rw [if_neg (by omega)]

theorem cobsStuffLoop_step_data_last (src : Nat → Nat) (src_length dst_length fuel : Nat)
    (st : CobsStuffSt) (h1 : st.index < src_length) (hff : ¬ st.encoded_value = 0xFF)
    (hd : src st.index ≠ 0x00) (hlast : st.index + 1 = src_length) :
    cobsStuffLoop src src_length dst_length (fuel + 1) st =
      cobsStuffLoop src src_length dst_length fuel
        { index := st.index + 1, encoded_value := st.encoded_value + 1,
          encoded_value_ptr := st.encoded_value_ptr,
          dest_value_ptr := st.dest_value_ptr + 2,
          stuffed_length := st.stuffed_length + 2,
          dst := updFn (updFn (updFn st.dst st.dest_value_ptr (src st.index))
                   st.encoded_value_ptr (st.encoded_value + 1)) (st.dest_value_ptr + 1) 0x00,
          oobWrite := ((st.oobWrite || decide (dst_length ≤ st.dest_value_ptr))
              || decide (dst_length ≤ st.encoded_value_ptr))
              || decide (dst_length ≤ st.dest_value_ptr + 1) } := by
  simp only [cobsStuffLoop, cobsWr, if_pos h1, if_neg hff, if_pos hd]
  simp only [if_pos hlast]
  rw [if_neg (by omega)]

theorem cobsStuffLoop_step_zero (src : Nat → Nat) (src_length dst_length fuel : Nat)
    (st : CobsStuffSt) (h1 : st.index < src_length) (hff : ¬ st.encoded_value = 0xFF)
    (hd : src st.index = 0x00) (hlast : ¬ st.index + 1 = src_length)
    (hcap : st.stuffed_length + 1 < dst_length) :
    cobsStuffLoop src src_length dst_length (fuel + 1) st =
      cobsStuffLoop src src_length dst_length fuel
        { index := st.index + 1, encoded_value := 0x01,
          encoded_value_ptr := st.dest_value_ptr,
          dest_value_ptr := st.dest_value_ptr + 1,
          stuffed_length := st.stuffed_length + 1,
          dst := updFn st.dst st.encoded_value_ptr st.encoded_value,
          oobWrite := st.oobWrite || decide (dst_length ≤ st.encoded_value_ptr) } := by
  simp only [cobsStuffLoop, cobsWr, if_pos h1, if_neg hff,
    if_neg (show ¬ src st.index ≠ 0x00 by simp [hd])]
  simp only [if_neg hlast]
  rw [if_neg (by omega)]

theorem cobsStuffLoop_step_zero_last (src : Nat → Nat) (src_length dst_length fuel : Nat)
    (st : CobsStuffSt) (h1 : st.index < src_length) (hff : ¬ st.encoded_value = 0xFF)
    (hd : src st.index = 0x00) (hlast : st.index + 1 = src_length) :
    cobsStuffLoop src src_length dst_length (fuel + 1) st =
      cobsStuffLoop src src_length dst_length fuel
        { index := st.index + 1, encoded_value := 0x01,
          encoded_value_ptr := st.dest_value_ptr,
          dest_value_ptr := st.dest_value_ptr + 2,
          stuffed_length := st.stuffed_length + 2,
          dst := updFn (updFn (updFn st.dst st.encoded_value_ptr st.encoded_value)
                   st.dest_value_ptr 0x01) (st.dest_value_ptr + 1) 0x00,
          oobWrite := ((st.oobWrite || decide (dst_length ≤ st.encoded_value_ptr))
              || decide (dst_length ≤ st.dest_value_ptr))
              || decide (dst_length ≤ st.dest_value_ptr + 1) } := by
  simp only [cobsStuffLoop, cobsWr, if_pos h1, if_neg hff,
    if_neg (show ¬ src st.index ≠ 0x00 by simp [hd])]
  simp only [if_pos hlast]
  rw [if_neg (by omega)]

theorem getD_append_off (acc L : List Nat) (k : Nat) :
    (acc ++ L).getD (acc.length + k) 0 = L.getD k 0 := by
  rw [List.getD_append_right _ _ _ _ (by omega)]
  congr 1
  omega

/-- Main refinement for `fh_cobs_stuff_bytes`: from any loop state that
represents encoder state `(acc, blk, r)` — `acc` the closed output, `blk` the
open block (reversed), `r` the unread source — the loop succeeds and the
destination holds `acc ++ cobsEnc blk r`, provided the destination capacity
covers the encoding and the fuel covers the iterations. -/
theorem cobsStuffLoop_spec (src : Nat → Nat) (src_length dst_length : Nat) :
    ∀ (fuel : Nat) (r blk acc : List Nat) (st : CobsStuffSt),
    r ≠ [] →
    (∀ j, j < r.length → src (st.index + j) = r.getD j 0) →
    st.index + r.length = src_length →
    st.encoded_value = blk.length + 1 →
    blk.length ≤ 254 →
    st.encoded_value_ptr = acc.length →
    st.dest_value_ptr = acc.length + 1 + blk.length →
    st.stuffed_length = st.dest_value_ptr →
    (∀ i, i < acc.length → st.dst i = acc.getD i 0) →
    (∀ j, j < blk.length → st.dst (acc.length + 1 + j) = blk.reverse.getD j 0) →
    st.oobWrite = false →
    acc.length + (cobsEnc blk r).length ≤ dst_length →
    2 * r.length + (if blk.length = 254 then 1 else 0) + 2 ≤ fuel →
    ∃ dstF : Nat → Nat,
      cobsStuffLoop src src_length dst_length fuel st =
        some ⟨.COBS_SUCCESS, acc.length + (cobsEnc blk r).length, dstF, false⟩ ∧
      ∀ i, i < acc.length + (cobsEnc blk r).length →
        dstF i = (acc ++ cobsEnc blk r).getD i 0 := by
  intro fuel
  induction fuel with
  | zero =>
    intro r blk acc st _ _ _ _ _ _ _ _ _ _ _ _ hfuel
    omega
  | succ fuel ih =>
    intro r blk acc st hr hsrc hidx hev hble hevp hdvp hsl hacc hblk hoob hcap hfuel
    cases r with
    | nil => exact absurd rfl hr
    | cons b r' =>
    simp only [List.length_cons] at hidx hfuel
    have hlt : st.index < src_length := by omega
    have hdata : src st.index = b := by
      have := hsrc 0 (by simp)
      simpa using this
    by_cases h254 : blk.length = 254
    · -- block is full: close it with a 0xFF length byte, index does not move
      have hff : st.encoded_value = 0xFF := by rw [hev, h254]
      have henc : cobsEnc blk (b :: r') =
          0xFF :: (blk.reverse ++ cobsEnc [] (b :: r')) := by
        by_cases hb : b = 0x00
        · simp [cobsEnc, h254, hb]
        · simp [cobsEnc, h254, hb]
      have hinner := cobsEnc_length_ge (b :: r') ([] : List Nat)
      simp only [List.length_nil] at hinner
      have hencl : (cobsEnc blk (b :: r')).length =
          255 + (cobsEnc [] (b :: r')).length := by
        rw [henc]; simp [h254]; omega
      have hcap2 : st.stuffed_length + 1 < dst_length := by
        rw [hsl, hdvp]; omega
      rw [cobsStuffLoop_step_ff src src_length dst_length fuel st hlt hff hcap2]
      have hoob' : (st.oobWrite || decide (dst_length ≤ st.encoded_value_ptr)) = false := by
        rw [hoob, hevp]
        simp only [Bool.false_or, decide_eq_false_iff_not, not_le]
        omega
      obtain ⟨dstF, hrun, hdst⟩ := ih (b :: r') [] (acc ++ 0xFF :: blk.reverse)
        { index := st.index, encoded_value := 0x01,
          encoded_value_ptr := st.dest_value_ptr,
          dest_value_ptr := st.dest_value_ptr + 1,
          stuffed_length := st.stuffed_length + 1,
          dst := updFn st.dst st.encoded_value_ptr st.encoded_value,
          oobWrite := st.oobWrite || decide (dst_length ≤ st.encoded_value_ptr) }
        (by simp)
        (by intro j hj; exact hsrc j (by simpa using hj))
        (by dsimp only; simpa using hidx)
        (by simp)
        (by simp)
        (by dsimp only; simp [hdvp, h254] <;> omega)
        (by dsimp only; simp [hdvp, h254] <;> omega)
        (by dsimp only; simp [hsl])
        (by
          intro i hi
          dsimp only
          simp only [List.length_append, List.length_cons, List.length_reverse] at hi
          rcases Nat.lt_trichotomy i acc.length with hcase | hcase | hcase
          · rw [updFn_ne _ _ _ _ (by rw [hevp]; omega),
              hacc i hcase, List.getD_append _ _ _ _ (by omega)]
          · subst hcase
            rw [hevp, updFn_eq, hff]
            have : (acc ++ 0xFF :: blk.reverse).getD (acc.length + 0) 0 =
                (0xFF :: blk.reverse).getD 0 0 := getD_append_off _ _ 0
            simpa using this.symm
          · obtain ⟨j, hj, rfl⟩ : ∃ j, j < blk.length ∧ i = acc.length + 1 + j :=
              ⟨i - acc.length - 1, by omega, by omega⟩
            rw [updFn_ne _ _ _ _ (by rw [hevp]; omega), hblk j hj]
            have : (acc ++ 0xFF :: blk.reverse).getD (acc.length + (1 + j)) 0 =
                (0xFF :: blk.reverse).getD (1 + j) 0 := getD_append_off _ _ _
            rw [show acc.length + 1 + j = acc.length + (1 + j) by omega, this]
            simp [show 1 + j = j + 1 by omega])
        (by intro j hj; simp at hj)
        (by dsimp only; exact hoob')
        (by
          simp only [List.length_append, List.length_cons, List.length_reverse]
          omega)
        (by
          rw [if_pos h254] at hfuel
          simp only [List.length_cons, List.length_nil] at hfuel ⊢
          rw [if_neg (by simp)]
          omega)
      refine ⟨dstF, ?_, ?_⟩
      · rw [hrun]
        simp only [Option.some.injEq, CobsStuffOut.mk.injEq, true_and, and_true]
        simp only [List.length_append, List.length_cons, List.length_reverse]
        omega
      · intro i hi
        have h1 : (acc ++ 0xFF :: blk.reverse) ++ cobsEnc [] (b :: r') =
            acc ++ cobsEnc blk (b :: r') := by
          rw [henc, List.append_assoc]
          simp
        rw [← h1]
        refine hdst i ?_
        simp only [List.length_append, List.length_cons, List.length_reverse]
        omega
    · by_cases hb : b = 0x00
      · -- source byte is zero: close the block with its length byte
        subst hb
        have henc : cobsEnc blk (0x00 :: r') =
            (blk.length + 1) :: (blk.reverse ++ cobsEnc [] r') := by
          simp [cobsEnc, h254]
        cases r' with
        | nil =>
          -- last byte: zero-close, then the end-of-input writes fire
          simp only [List.length_nil] at hidx hfuel
          have hlast : st.index + 1 = src_length := by omega
          have hencl : (cobsEnc blk [0x00]).length = blk.length + 3 := by
            rw [henc]; simp [cobsEnc]
          have hN : st.stuffed_length + 2 = acc.length + (cobsEnc blk [0x00]).length := by
            rw [hsl, hdvp, hencl]; omega
          obtain ⟨f, hfe⟩ : ∃ f, fuel = f + 1 := ⟨fuel - 1, by omega⟩
          refine ⟨updFn (updFn (updFn st.dst st.encoded_value_ptr st.encoded_value)
              st.dest_value_ptr 0x01) (st.dest_value_ptr + 1) 0x00, ?_, ?_⟩
          · rw [cobsStuffLoop_step_zero_last src src_length dst_length fuel st hlt
              (by rw [hev]; omega) hdata hlast, hfe,
              cobsStuffLoop_exit src src_length dst_length f _ (by dsimp only; omega)]
            dsimp only
            simp only [Option.some.injEq, CobsStuffOut.mk.injEq, true_and, and_true]
            refine ⟨hN, ?_⟩
            simp only [hoob, Bool.false_or, Bool.or_eq_false_iff,
              decide_eq_false_iff_not, not_le, hevp, hdvp]
            omega
          · intro i hi
            rw [← hN, hsl, hdvp] at hi
            have hle : cobsEnc blk [0x00] =
                (blk.length + 1) :: (blk.reverse ++ [0x01, 0x00]) := by
              rw [henc]; simp [cobsEnc]
            rw [hle]
            rcases Nat.lt_trichotomy i acc.length with hcase | hcase | hcase
            · rw [updFn_ne _ _ _ _ (by rw [hdvp]; omega),
                updFn_ne _ _ _ _ (by rw [hdvp]; omega),
                updFn_ne _ _ _ _ (by rw [hevp]; omega),
                hacc i hcase, List.getD_append _ _ _ _ (by omega)]
            · subst hcase
              rw [updFn_ne _ _ _ _ (by rw [hdvp]; omega),
                updFn_ne _ _ _ _ (by rw [hdvp]; omega),
                ← hevp, updFn_eq, hev, hevp]
              have := getD_append_off acc ((blk.length + 1) :: (blk.reverse ++ [0x01, 0x00])) 0
              simpa using this.symm
            · rcases Nat.lt_trichotomy i (acc.length + 1 + blk.length) with hc2 | hc2 | hc2
              · obtain ⟨j, hj, rfl⟩ : ∃ j, j < blk.length ∧ i = acc.length + 1 + j :=
                  ⟨i - acc.length - 1, by omega, by omega⟩
                rw [updFn_ne _ _ _ _ (by rw [hdvp]; omega),
                  updFn_ne _ _ _ _ (by rw [hdvp]; omega),
                  updFn_ne _ _ _ _ (by rw [hevp]; omega), hblk j hj,
                  show acc.length + 1 + j = acc.length + (1 + j) by omega,
                  getD_append_off]
                simp only [show 1 + j = j + 1 by omega, List.getD_cons_succ]
                rw [List.getD_append _ _ _ _ (by simpa using hj)]
              · rw [updFn_ne _ _ _ _ (by rw [hdvp]; omega),
                  show i = st.dest_value_ptr by rw [hdvp]; omega, updFn_eq,
                  show st.dest_value_ptr = acc.length + (1 + blk.length) by rw [hdvp]; omega,
                  getD_append_off]
                simp only [show 1 + blk.length = blk.length + 1 by omega,
                  List.getD_cons_succ]
                rw [List.getD_append_right _ _ _ _ (by simp), List.length_reverse,
                  Nat.sub_self]
                rfl
              · rw [show i = st.dest_value_ptr + 1 by rw [hdvp]; omega, updFn_eq,
                  show st.dest_value_ptr + 1 = acc.length + (1 + (blk.length + 1)) by
                    rw [hdvp]; omega, getD_append_off]
                simp only [show 1 + (blk.length + 1) = blk.length + 2 by omega,
                  List.getD_cons_succ]
                rw [List.getD_append_right _ _ _ _ (by simp), List.length_reverse,
                  show blk.length + 1 - blk.length = 1 by omega]
                rfl
        | cons c r'' =>
          have hlast : ¬ st.index + 1 = src_length := by
            simp only [List.length_cons] at hidx; omega
          have hinner := cobsEnc_length_ge (c :: r'') ([] : List Nat)
          simp only [List.length_nil] at hinner
          have hencl : (cobsEnc blk (0x00 :: c :: r'')).length =
              blk.length + 1 + (cobsEnc [] (c :: r'')).length := by
            rw [henc]; simp; omega
          have hcap2 : st.stuffed_length + 1 < dst_length := by
            rw [hsl, hdvp]; omega
          rw [cobsStuffLoop_step_zero src src_length dst_length fuel st hlt
            (by rw [hev]; omega) hdata hlast hcap2]
          have hoob' : (st.oobWrite || decide (dst_length ≤ st.encoded_value_ptr)) = false := by
            rw [hoob, hevp]
            simp only [Bool.false_or, decide_eq_false_iff_not, not_le]
            omega
          obtain ⟨dstF, hrun, hdst⟩ := ih (c :: r'') []
            (acc ++ (blk.length + 1) :: blk.reverse)
            { index := st.index + 1, encoded_value := 0x01,
              encoded_value_ptr := st.dest_value_ptr,
              dest_value_ptr := st.dest_value_ptr + 1,
              stuffed_length := st.stuffed_length + 1,
              dst := updFn st.dst st.encoded_value_ptr st.encoded_value,
              oobWrite := st.oobWrite || decide (dst_length ≤ st.encoded_value_ptr) }
            (by simp)
            (by
              intro j hj
              have := hsrc (j + 1) (by simp only [List.length_cons]; simpa using hj)
              dsimp only
              simpa [show st.index + 1 + j = st.index + (j + 1) by omega] using this)
            (by
              dsimp only
              simp only [List.length_cons] at hidx ⊢
              omega)
            (by simp)
            (by simp)
            (by dsimp only; simp [hdvp] <;> omega)
            (by dsimp only; simp [hdvp] <;> omega)
            (by dsimp only; simp [hsl])
            (by
              intro i hi
              dsimp only
              simp only [List.length_append, List.length_cons, List.length_reverse] at hi
              rcases Nat.lt_trichotomy i acc.length with hcase | hcase | hcase
              · rw [updFn_ne _ _ _ _ (by rw [hevp]; omega),
                  hacc i hcase, List.getD_append _ _ _ _ (by omega)]
              · subst hcase
                rw [hevp, updFn_eq, hev]
                have := getD_append_off acc ((blk.length + 1) :: blk.reverse) 0
                simpa using this.symm
              · obtain ⟨j, hj, rfl⟩ : ∃ j, j < blk.length ∧ i = acc.length + 1 + j :=
                  ⟨i - acc.length - 1, by omega, by omega⟩
                rw [updFn_ne _ _ _ _ (by rw [hevp]; omega), hblk j hj,
                  show acc.length + 1 + j = acc.length + (1 + j) by omega,
                  getD_append_off]
                simp [show 1 + j = j + 1 by omega])
            (by intro j hj; simp at hj)
            (by dsimp only; exact hoob')
            (by
              simp only [List.length_append, List.length_cons, List.length_reverse]
              omega)
            (by
              rw [if_neg h254] at hfuel
              simp only [List.length_cons, List.length_nil] at hfuel ⊢
              rw [if_neg (by simp)]
              omega)
          refine ⟨dstF, ?_, ?_⟩
          · rw [hrun]
            simp only [Option.some.injEq, CobsStuffOut.mk.injEq, true_and, and_true]
            simp only [List.length_append, List.length_cons, List.length_reverse]
            omega
          · intro i hi
            have h1 : (acc ++ (blk.length + 1) :: blk.reverse) ++ cobsEnc [] (c :: r'') =
                acc ++ cobsEnc blk (0x00 :: c :: r'') := by
              rw [henc, List.append_assoc]
              simp
            rw [← h1]
            refine hdst i ?_
            simp only [List.length_append, List.length_cons, List.length_reverse]
            omega
      · -- nonzero source byte: append it to the open block
        have henc : cobsEnc blk (b :: r') = cobsEnc (b :: blk) r' := by
          simp [cobsEnc, h254, hb]
        cases r' with
        | nil =>
          simp only [List.length_nil] at hidx hfuel
          have hlast : st.index + 1 = src_length := by omega
          have hle : cobsEnc blk [b] =
              (blk.length + 2) :: ((blk.reverse ++ [b]) ++ [0x00]) := by
            rw [henc]
            simp [cobsEnc]
          have hencl : (cobsEnc blk [b]).length = blk.length + 3 := by
            rw [hle]; simp <;> omega
          have hN : st.stuffed_length + 2 = acc.length + (cobsEnc blk [b]).length := by
            rw [hsl, hdvp, hencl]; omega
          obtain ⟨f, hfe⟩ : ∃ f, fuel = f + 1 := ⟨fuel - 1, by omega⟩
          refine ⟨updFn (updFn (updFn st.dst st.dest_value_ptr (src st.index))
              st.encoded_value_ptr (st.encoded_value + 1))
              (st.dest_value_ptr + 1) 0x00, ?_, ?_⟩
          · rw [cobsStuffLoop_step_data_last src src_length dst_length fuel st hlt
              (by rw [hev]; omega) (by rw [hdata]; exact hb) hlast, hfe,
              cobsStuffLoop_exit src src_length dst_length f _ (by dsimp only; omega)]
            dsimp only
            simp only [Option.some.injEq, CobsStuffOut.mk.injEq, true_and, and_true]
            refine ⟨hN, ?_⟩
            simp only [hoob, Bool.false_or, Bool.or_eq_false_iff,
              decide_eq_false_iff_not, not_le, hevp, hdvp]
            omega
          · intro i hi
            rw [← hN, hsl, hdvp] at hi
            rw [hle]
            rcases Nat.lt_trichotomy i acc.length with hcase | hcase | hcase
            · rw [updFn_ne _ _ _ _ (by rw [hdvp]; omega),
                updFn_ne _ _ _ _ (by rw [hevp]; omega),
                updFn_ne _ _ _ _ (by rw [hdvp]; omega),
                hacc i hcase, List.getD_append _ _ _ _ (by omega)]
            · subst hcase
              rw [updFn_ne _ _ _ _ (by rw [hdvp]; omega),
                ← hevp, updFn_eq, hev, hevp]
              have := getD_append_off acc
                ((blk.length + 2) :: ((blk.reverse ++ [b]) ++ [0x00])) 0
              simpa using this.symm
            · rcases Nat.lt_trichotomy i (acc.length + 1 + blk.length) with hc2 | hc2 | hc2
              · obtain ⟨j, hj, rfl⟩ : ∃ j, j < blk.length ∧ i = acc.length + 1 + j :=
                  ⟨i - acc.length - 1, by omega, by omega⟩
                rw [updFn_ne _ _ _ _ (by rw [hdvp]; omega),
                  updFn_ne _ _ _ _ (by rw [hevp]; omega),
                  updFn_ne _ _ _ _ (by rw [hdvp]; omega), hblk j hj,
                  show acc.length + 1 + j = acc.length + (1 + j) by omega,
                  getD_append_off]
                simp only [show 1 + j = j + 1 by omega, List.getD_cons_succ]
                rw [List.getD_append _ _ _ _ (by simp only [List.length_append,
                    List.length_reverse, List.length_cons, List.length_nil]; omega),
                  List.getD_append _ _ _ _ (by simpa using hj)]
              · rw [updFn_ne _ _ _ _ (by rw [hdvp]; omega),
                  updFn_ne _ _ _ _ (by rw [hevp]; omega),
                  show i = st.dest_value_ptr by rw [hdvp]; omega, updFn_eq, hdata,
                  show st.dest_value_ptr = acc.length + (1 + blk.length) by rw [hdvp]; omega,
                  getD_append_off]
                simp only [show 1 + blk.length = blk.length + 1 by omega,
                  List.getD_cons_succ]
                rw [List.getD_append _ _ _ _ (by simp),
                  List.getD_append_right _ _ _ _ (by simp), List.length_reverse,
                  Nat.sub_self]
                rfl
              · rw [show i = st.dest_value_ptr + 1 by rw [hdvp]; omega, updFn_eq,
                  show st.dest_value_ptr + 1 = acc.length + (1 + (blk.length + 1)) by
                    rw [hdvp]; omega, getD_append_off]
                simp only [show 1 + (blk.length + 1) = blk.length + 2 by omega,
                  List.getD_cons_succ]
                rw [List.getD_append_right _ _ _ _ (by simp)]
                simp
        | cons c r'' =>
          have hlast : ¬ st.index + 1 = src_length := by
            simp only [List.length_cons] at hidx; omega
          have hinner := cobsEnc_length_ge (c :: r'') (b :: blk)
          have hcap2 : st.stuffed_length + 1 < dst_length := by
            rw [henc] at hcap
            rw [hsl, hdvp]
            simp only [List.length_cons] at hinner
            omega
          rw [cobsStuffLoop_step_data src src_length dst_length fuel st hlt
            (by rw [hev]; omega) (by rw [hdata]; exact hb) hlast hcap2]
          have hoob' : (st.oobWrite || decide (dst_length ≤ st.dest_value_ptr)) = false := by
            rw [hoob, hdvp]
            simp only [Bool.false_or, decide_eq_false_iff_not, not_le]
            rw [henc] at hcap
            simp only [List.length_cons] at hinner
            omega
          obtain ⟨dstF, hrun, hdst⟩ := ih (c :: r'') (b :: blk) acc
            { index := st.index + 1, encoded_value := st.encoded_value + 1,
              encoded_value_ptr := st.encoded_value_ptr,
              dest_value_ptr := st.dest_value_ptr + 1,
              stuffed_length := st.stuffed_length + 1,
              dst := updFn st.dst st.dest_value_ptr (src st.index),
              oobWrite := st.oobWrite || decide (dst_length ≤ st.dest_value_ptr) }
            (by simp)
            (by
              intro j hj
              have := hsrc (j + 1) (by simp only [List.length_cons]; simpa using hj)
              dsimp only
              simpa [show st.index + 1 + j = st.index + (j + 1) by omega] using this)
            (by
              dsimp only
              simp only [List.length_cons] at hidx ⊢
              omega)
            (by dsimp only; simp [hev])
            (by simp only [List.length_cons]; omega)
            (by dsimp only; simpa using hevp)
            (by dsimp only; simp only [List.length_cons]; omega)
            (by dsimp only; simp [hsl])
            (by
              intro i hi
              dsimp only
              rw [updFn_ne _ _ _ _ (by rw [hdvp]; omega)]
              exact hacc i hi)
            (by
              intro j hj
              dsimp only
              simp only [List.length_cons] at hj
              rcases Nat.lt_trichotomy j blk.length with hc | hc | hc
              · rw [updFn_ne _ _ _ _ (by rw [hdvp]; omega), hblk j hc]
                simp only [List.reverse_cons]
                rw [List.getD_append _ _ _ _ (by simpa using hc)]
              · subst hc
                rw [show acc.length + 1 + blk.length = st.dest_value_ptr from hdvp.symm,
                  updFn_eq, hdata]
                simp only [List.reverse_cons]
                rw [List.getD_append_right _ _ _ _ (by simp), List.length_reverse,
                  Nat.sub_self]
                rfl
              · omega)
            (by dsimp only; exact hoob')
            (by rw [henc] at hcap; exact hcap)
            (by
              rw [if_neg h254] at hfuel
              simp only [List.length_cons] at hfuel ⊢
              by_cases hx : blk.length + 1 = 254
              · rw [if_pos hx]; omega
              · rw [if_neg hx]; omega)
          refine ⟨dstF, ?_, ?_⟩
          · rw [hrun, henc]
          · intro i hi
            rw [henc]
            refine hdst i ?_
            rw [henc] at hi
            exact hi

/-! Step lemmas for the `fh_cobs_unstuff_bytes` loop. -/

theorem cobsUnstuffLoop_step_data (src : Nat → Nat) (src_length dst_length fuel : Nat)
    (st : CobsUnstuffSt) (hcap : st.unstuffed_length < dst_length)
    (hne : st.index ≠ st.encoded_value) (hwrap : st.index + 1 < 256) :
    cobsUnstuffLoop src src_length dst_length (fuel + 1) st =
      cobsUnstuffLoop src src_length dst_length fuel
        { srcBase := st.srcBase, index := st.index + 1,
          encoded_value := st.encoded_value,
          unstuffed_length := st.unstuffed_length + 1,
          dst := updFn st.dst st.unstuffed_length (src (st.srcBase + st.index)),
          oobWrite := st.oobWrite || decide (dst_length ≤ st.unstuffed_length),
          oobRead := st.oobRead || decide (src_length ≤ st.srcBase + st.index) } := by
  simp only [cobsUnstuffLoop]
  rw [if_neg (by rintro ⟨h1, -⟩; omega), if_pos hne, Nat.mod_eq_of_lt hwrap,
    if_neg (by omega)]

theorem cobsUnstuffLoop_step_end (src : Nat → Nat) (src_length dst_length fuel : Nat)
    (st : CobsUnstuffSt) (hcap : st.unstuffed_length < dst_length)
    (heq : st.index = st.encoded_value) (hterm : src (st.srcBase + st.index) = 0x00) :
    cobsUnstuffLoop src src_length dst_length (fuel + 1) st =
      some ⟨.COBS_SUCCESS, st.unstuffed_length, st.dst, st.oobWrite,
        st.oobRead || decide (src_length ≤ st.srcBase + st.index)⟩ := by
  simp only [cobsUnstuffLoop]
  rw [if_neg (by rintro ⟨h1, -⟩; omega), if_neg (by simpa using heq), if_pos hterm]

theorem cobsUnstuffLoop_step_block (src : Nat → Nat) (src_length dst_length fuel : Nat)
    (st : CobsUnstuffSt) (hcap : st.unstuffed_length < dst_length)
    (heq : st.index = st.encoded_value) (hnz : ¬ src (st.srcBase + st.index) = 0x00)
    (h255 : st.index ≠ 0xFF) :
    cobsUnstuffLoop src src_length dst_length (fuel + 1) st =
      cobsUnstuffLoop src src_length dst_length fuel
        { srcBase := st.srcBase + st.index, index := 1,
          encoded_value := src (st.srcBase + st.index),
          unstuffed_length := st.unstuffed_length + 1,
          dst := updFn st.dst st.unstuffed_length 0x00,
          oobWrite := st.oobWrite || decide (dst_length ≤ st.unstuffed_length),
          oobRead := st.oobRead || decide (src_length ≤ st.srcBase + st.index) } := by
  simp only [cobsUnstuffLoop]
  rw [if_neg (by rintro ⟨h1, -⟩; omega), if_neg (by simpa using heq), if_neg hnz,
    if_pos h255]

theorem cobsUnstuffLoop_step_block255 (src : Nat → Nat) (src_length dst_length fuel : Nat)
    (st : CobsUnstuffSt) (hcap : st.unstuffed_length < dst_length)
    (heq : st.index = st.encoded_value) (hnz : ¬ src (st.srcBase + st.index) = 0x00)
    (h255 : st.index = 0xFF) :
    cobsUnstuffLoop src src_length dst_length (fuel + 1) st =
      cobsUnstuffLoop src src_length dst_length fuel
        { srcBase := st.srcBase + st.index, index := 1,
          encoded_value := src (st.srcBase + st.index),
          unstuffed_length := st.unstuffed_length,
          dst := st.dst,
          oobWrite := st.oobWrite,
          oobRead := st.oobRead || decide (src_length ≤ st.srcBase + st.index) } := by
  simp only [cobsUnstuffLoop]
  rw [if_neg (by rintro ⟨h1, -⟩; omega), if_neg (by simpa using heq), if_neg hnz,
    if_neg (by simpa using h255)]

/-- Running the unstuff loop through the `k` remaining data bytes of the
current block, up to (but not into) the block-boundary iteration. -/
theorem cobsUnstuffLoop_data_run (src : Nat → Nat) (src_length dst_length : Nat) :
    ∀ (k fuel : Nat) (st : CobsUnstuffSt),
    st.index + k = st.encoded_value →
    1 ≤ st.index →
    st.encoded_value ≤ 255 →
    st.unstuffed_length + k ≤ dst_length →
    st.srcBase + st.encoded_value ≤ src_length →
    st.oobWrite = false →
    st.oobRead = false →
    ∃ dstF : Nat → Nat,
      cobsUnstuffLoop src src_length dst_length fuel st =
        cobsUnstuffLoop src src_length dst_length (fuel - k)
          { srcBase := st.srcBase, index := st.encoded_value,
            encoded_value := st.encoded_value,
            unstuffed_length := st.unstuffed_length + k,
            dst := dstF, oobWrite := false, oobRead := false } ∧
      (∀ i, i < st.unstuffed_length → dstF i = st.dst i) ∧
      (∀ t, t < k → dstF (st.unstuffed_length + t) = src (st.srcBase + st.index + t)) := by
  intro k
  induction k with
  | zero =>
    intro fuel st hk h1 h255 hcap hsrc how hor
    refine ⟨st.dst, ?_, fun i _ => rfl, fun t ht => absurd ht (by omega)⟩
    obtain ⟨sb, ix, ev, u, d, ow, orr⟩ := st
    simp only at hk h1 h255 hcap hsrc how hor
    subst how hor
    simp only [Nat.sub_zero]
    congr 1 <;> simp <;> omega
  | succ k ihk =>
    intro fuel st hk h1 h255 hcap hsrc how hor
    cases fuel with
    | zero =>
      refine ⟨fun i => if i < st.unstuffed_length then st.dst i
        else src (st.srcBase + st.index + (i - st.unstuffed_length)), ?_, ?_, ?_⟩
      · simp [cobsUnstuffLoop]
      · intro i hi; simp [hi]
      · intro t ht
        simp only [if_neg (by omega : ¬ st.unstuffed_length + t < st.unstuffed_length)]
        congr 1
        omega
    | succ fuel =>
      rw [cobsUnstuffLoop_step_data src src_length dst_length fuel st (by omega)
        (by omega) (by omega)]
      obtain ⟨dstF, hrun, hlow, hdata⟩ := ihk fuel
        { srcBase := st.srcBase, index := st.index + 1,
          encoded_value := st.encoded_value,
          unstuffed_length := st.unstuffed_length + 1,
          dst := updFn st.dst st.unstuffed_length (src (st.srcBase + st.index)),
          oobWrite := st.oobWrite || decide (dst_length ≤ st.unstuffed_length),
          oobRead := st.oobRead || decide (src_length ≤ st.srcBase + st.index) }
        (by dsimp only; omega) (by dsimp only; omega) (by dsimp only; omega)
        (by dsimp only; omega) (by dsimp only; omega)
        (by
          dsimp only
          rw [how]
          simp only [Bool.false_or, decide_eq_false_iff_not, not_le]
          omega)
        (by
          dsimp only
          rw [hor]
          simp only [Bool.false_or, decide_eq_false_iff_not, not_le]
          omega)
      refine ⟨dstF, ?_, ?_, ?_⟩
      · rw [hrun]
        dsimp only
        rw [show fuel - k = fuel + 1 - (k + 1) by omega,
          show st.unstuffed_length + 1 + k = st.unstuffed_length + (k + 1) by omega]
      · intro i hi
        rw [hlow i (by dsimp only; omega)]
        exact updFn_ne _ _ _ _ (by omega)
      · intro t ht
        cases t with
        | zero =>
          have := hlow st.unstuffed_length (by dsimp only; omega)
          rw [show st.unstuffed_length + 0 = st.unstuffed_length by omega, this]
          dsimp only
          rw [updFn_eq, Nat.add_zero]
        | succ t' =>
          have := hdata t' (by omega)
          dsimp only at this
          rw [show st.unstuffed_length + (t' + 1) = st.unstuffed_length + 1 + t' by omega,
            this]
          congr 1
          omega

theorem cobsBlocksEnc_length_pos (bs : List (List Nat)) :
    1 ≤ (cobsBlocksEnc bs).length := by
  cases bs <;> simp [cobsBlocksEnc]

/-- Main refinement for `fh_cobs_unstuff_bytes`: at the entry of each block
(the block's length byte just read into `encoded_value`), the loop decodes the
remaining block stream and succeeds, staying inside both buffers. -/
theorem cobsUnstuffLoop_blocks (src : Nat → Nat) (src_length dst_length : Nat) :
    ∀ (bs : List (List Nat)) (d : List Nat) (p u fuel : Nat) (dstF0 : Nat → Nat),
    d.length ≤ 254 →
    (∀ d' ∈ bs, d'.length ≤ 254) →
    (∀ j, j < (cobsBlocksEnc (d :: bs)).length →
      src (p + j) = (cobsBlocksEnc (d :: bs)).getD j 0) →
    p + (cobsBlocksEnc (d :: bs)).length ≤ src_length →
    u + (cobsBlocksDec (d :: bs)).length < dst_length →
    (cobsBlocksEnc (d :: bs)).length ≤ fuel →
    ∃ dstF : Nat → Nat,
      cobsUnstuffLoop src src_length dst_length fuel
        ⟨p, 1, d.length + 1, u, dstF0, false, false⟩ =
        some ⟨.COBS_SUCCESS, u + (cobsBlocksDec (d :: bs)).length, dstF, false, false⟩ ∧
      (∀ i, i < u → dstF i = dstF0 i) ∧
      (∀ t, t < (cobsBlocksDec (d :: bs)).length →
        dstF (u + t) = (cobsBlocksDec (d :: bs)).getD t 0) := by
  intro bs
  induction bs with
  | nil =>
    intro d p u fuel dstF0 hd _ hwin hsl hdl hfl
    have hlen : (cobsBlocksEnc [d]).length = d.length + 2 := by
      simp [cobsBlocksEnc]
    have hdec : cobsBlocksDec [d] = d := rfl
    rw [hdec] at hdl ⊢
    obtain ⟨dstF1, hA, hlow1, hdat1⟩ := cobsUnstuffLoop_data_run src src_length dst_length
      d.length fuel ⟨p, 1, d.length + 1, u, dstF0, false, false⟩
      (by dsimp only; omega) (by dsimp only; omega) (by dsimp only; omega)
      (by dsimp only; omega) (by dsimp only; rw [hlen] at hsl; omega) rfl rfl
    obtain ⟨f', hf'⟩ : ∃ f', fuel - d.length = f' + 1 :=
      ⟨fuel - d.length - 1, by rw [hlen] at hfl; omega⟩
    have hterm : src (p + (d.length + 1)) = 0x00 := by
      have hj := hwin (d.length + 1) (by rw [hlen]; omega)
      rw [hj]
      show ((d.length + 1) :: (d ++ cobsBlocksEnc [])).getD (d.length + 1) 0 = 0
      rw [List.getD_cons_succ, List.getD_append_right _ _ _ _ (Nat.le_refl _),
        Nat.sub_self]
      rfl
    have hreadd : ∀ t, t < d.length → src (p + (1 + t)) = d.getD t 0 := by
      intro t ht
      have hj := hwin (1 + t) (by rw [hlen]; omega)
      rw [hj, show (1 : Nat) + t = t + 1 by omega]
      show ((d.length + 1) :: (d ++ cobsBlocksEnc [])).getD (t + 1) 0 = d.getD t 0
      rw [List.getD_cons_succ, List.getD_append _ _ _ _ ht]
    refine ⟨dstF1, ?_, ?_, ?_⟩
    · rw [hA]
      dsimp only
      rw [hf', cobsUnstuffLoop_step_end src src_length dst_length f' _
        (by dsimp only; omega) (by dsimp only) (by dsimp only; exact hterm)]
      dsimp only
      simp only [Option.some.injEq, CobsUnstuffOut.mk.injEq, true_and, and_true]
      simp only [Bool.false_or, decide_eq_false_iff_not, not_le]
      rw [hlen] at hsl
      omega
    · intro i hi
      exact hlow1 i (by dsimp only; omega)
    · intro t ht
      have h1 := hdat1 t (by omega)
      dsimp only at h1
      rw [h1, show p + 1 + t = p + (1 + t) by omega, hreadd t ht]
  | cons d1 bs' ih =>
    intro d p u fuel dstF0 hd hwf hwin hsl hdl hfl
    have hlen : (cobsBlocksEnc (d :: d1 :: bs')).length =
        d.length + 1 + (cobsBlocksEnc (d1 :: bs')).length := by
      simp [cobsBlocksEnc]; omega
    have hlen1 : (cobsBlocksEnc (d1 :: bs')).length =
        d1.length + 1 + (cobsBlocksEnc bs').length := by
      simp [cobsBlocksEnc]; omega
    have hpos := cobsBlocksEnc_length_pos bs'
    have hdecc : cobsBlocksDec (d :: d1 :: bs') =
        d ++ (if d.length = 254 then [] else [0x00]) ++ cobsBlocksDec (d1 :: bs') :=
      cobsBlocksDec_cons_of_ne_nil _ _ (by simp)
    have hdecl := congrArg List.length hdecc
    simp only [List.length_append] at hdecl
    obtain ⟨dstF1, hA, hlow1, hdat1⟩ := cobsUnstuffLoop_data_run src src_length dst_length
      d.length fuel ⟨p, 1, d.length + 1, u, dstF0, false, false⟩
      (by dsimp only; omega) (by dsimp only; omega) (by dsimp only; omega)
      (by
        dsimp only
        by_cases h : d.length = 254 <;> simp [h] at hdecl <;> omega)
      (by dsimp only; rw [hlen] at hsl; omega) rfl rfl
    obtain ⟨f', hf'⟩ : ∃ f', fuel - d.length = f' + 1 :=
      ⟨fuel - d.length - 1, by rw [hlen, hlen1] at hfl; omega⟩
    have hread0 : src (p + (d.length + 1)) = d1.length + 1 := by
      have hj := hwin (d.length + 1) (by rw [hlen]; omega)
      rw [hj]
      show ((d.length + 1) :: (d ++ cobsBlocksEnc (d1 :: bs'))).getD (d.length + 1) 0 =
        d1.length + 1
      rw [List.getD_cons_succ, List.getD_append_right _ _ _ _ (Nat.le_refl _),
        Nat.sub_self]
      rfl
    have hreadd : ∀ t, t < d.length → src (p + (1 + t)) = d.getD t 0 := by
      intro t ht
      have hj := hwin (1 + t) (by rw [hlen]; omega)
      rw [hj, show (1 : Nat) + t = t + 1 by omega]
      show ((d.length + 1) :: (d ++ cobsBlocksEnc (d1 :: bs'))).getD (t + 1) 0 = d.getD t 0
      rw [List.getD_cons_succ, List.getD_append _ _ _ _ ht]
    have hwin' : ∀ j, j < (cobsBlocksEnc (d1 :: bs')).length →
        src (p + (d.length + 1) + j) = (cobsBlocksEnc (d1 :: bs')).getD j 0 := by
      intro j hj
      have h1 := hwin (d.length + 1 + j) (by rw [hlen]; omega)
      rw [show p + (d.length + 1 + j) = p + (d.length + 1) + j by omega] at h1
      rw [h1]
      show ((d.length + 1) :: (d ++ cobsBlocksEnc (d1 :: bs'))).getD (d.length + 1 + j) 0 = _
      rw [show d.length + 1 + j = (d.length + j) + 1 by omega, List.getD_cons_succ,
        List.getD_append_right _ _ _ _ (by omega)]
      congr 1
      omega
    by_cases h254 : d.length = 254
    · -- a 255 length byte: the decoder emits no implicit zero at this boundary
      have hdecc2 : cobsBlocksDec (d :: d1 :: bs') = d ++ cobsBlocksDec (d1 :: bs') := by
        rw [hdecc, if_pos h254]
        simp
      obtain ⟨dstF, hrun, hlowI, hdatI⟩ := ih d1 (p + (d.length + 1)) (u + d.length) f' dstF1
        (hwf d1 (by simp))
        (fun d' hd' => hwf d' (by simp [hd']))
        hwin'
        (by rw [hlen] at hsl; omega)
        (by rw [hdecc2] at hdl; simp only [List.length_append] at hdl; omega)
        (by rw [hlen] at hfl; omega)
      refine ⟨dstF, ?_, ?_, ?_⟩
      · rw [hA]
        dsimp only
        rw [hf', cobsUnstuffLoop_step_block255 src src_length dst_length f' _
          (by dsimp only; rw [hdecc2] at hdl; simp only [List.length_append] at hdl; omega)
          rfl (by dsimp only; rw [hread0]; omega)
          (by dsimp only; omega)]
        dsimp only
        rw [show p + (d.length + 1) = p + (d.length + 1) from rfl, hread0,
          show (false || decide (src_length ≤ p + (d.length + 1))) = false by
            simp only [Bool.false_or, decide_eq_false_iff_not, not_le]
            rw [hlen, hlen1] at hsl
            omega]
        rw [hrun]
        simp only [Option.some.injEq, CobsUnstuffOut.mk.injEq, true_and, and_true]
        rw [hdecc2]
        simp only [List.length_append]
        omega
      · intro i hi
        rw [hlowI i (by omega)]
        exact hlow1 i (by dsimp only; omega)
      · intro t ht
        rw [hdecc2] at ht ⊢
        simp only [List.length_append] at ht
        rcases Nat.lt_or_ge t d.length with hc | hc
        · rw [hlowI (u + t) (by omega)]
          have h1 := hdat1 t (by omega)
          dsimp only at h1
          rw [h1, show p + 1 + t = p + (1 + t) by omega, hreadd t hc,
            List.getD_append _ _ _ _ hc]
        · obtain ⟨t', rfl⟩ : ∃ t', t = d.length + t' := ⟨t - d.length, by omega⟩
          have h1 := hdatI t' (by omega)
          rw [show u + (d.length + t') = u + d.length + t' by omega, h1,
            List.getD_append_right _ _ _ _ (by omega)]
          congr 1
          omega
    · -- ordinary block boundary: the decoder emits the implicit zero
      have hdecc2 : cobsBlocksDec (d :: d1 :: bs') =
          d ++ 0x00 :: cobsBlocksDec (d1 :: bs') := by
        rw [hdecc, if_neg h254]
        simp
      have hdl2 : u + (d.length + 1 + (cobsBlocksDec (d1 :: bs')).length) < dst_length := by
        rw [hdecc2] at hdl
        simp only [List.length_append, List.length_cons] at hdl
        omega
      obtain ⟨dstF, hrun, hlowI, hdatI⟩ := ih d1 (p + (d.length + 1)) (u + d.length + 1) f'
        (updFn dstF1 (u + d.length) 0x00)
        (hwf d1 (by simp))
        (fun d' hd' => hwf d' (by simp [hd']))
        hwin'
        (by rw [hlen] at hsl; omega)
        (by omega)
        (by rw [hlen] at hfl; omega)
      refine ⟨dstF, ?_, ?_, ?_⟩
      · rw [hA]
        dsimp only
        rw [hf', cobsUnstuffLoop_step_block src src_length dst_length f' _
          (by dsimp only; omega)
          rfl (by dsimp only; rw [hread0]; omega)
          (by dsimp only; omega)]
        dsimp only
        rw [hread0,
          show (false || decide (dst_length ≤ u + d.length)) = false by
            simp only [Bool.false_or, decide_eq_false_iff_not, not_le]
            omega,
          show (false || decide (src_length ≤ p + (d.length + 1))) = false by
            simp only [Bool.false_or, decide_eq_false_iff_not, not_le]
            rw [hlen, hlen1] at hsl
            omega]
        rw [hrun]
        simp only [Option.some.injEq, CobsUnstuffOut.mk.injEq, true_and, and_true]
        rw [hdecc2]
        simp only [List.length_append, List.length_cons]
        omega
      · intro i hi
        rw [hlowI i (by omega), updFn_ne _ _ _ _ (by omega)]
        exact hlow1 i (by dsimp only; omega)
      · intro t ht
        rw [hdecc2] at ht ⊢
        simp only [List.length_append, List.length_cons] at ht
        rcases Nat.lt_trichotomy t d.length with hc | hc | hc
        · rw [hlowI (u + t) (by omega), updFn_ne _ _ _ _ (by omega)]
          have h1 := hdat1 t (by omega)
          dsimp only at h1
          rw [h1, show p + 1 + t = p + (1 + t) by omega, hreadd t hc,
            List.getD_append _ _ _ _ hc]
        · subst hc
          rw [hlowI (u + d.length) (by omega), updFn_eq,
            List.getD_append_right _ _ _ _ (Nat.le_refl _), Nat.sub_self]
          rfl
        · obtain ⟨t', rfl⟩ : ∃ t', t = d.length + 1 + t' := ⟨t - d.length - 1, by omega⟩
          have h1 := hdatI t' (by omega)
          rw [show u + (d.length + 1 + t') = u + d.length + 1 + t' by omega, h1,
            List.getD_append_right _ _ _ _ (by omega),
            show d.length + 1 + t' - d.length = t' + 1 by omega, List.getD_cons_succ]

theorem fnToList_eq_of_getD (f : Nat → Nat) (l : List Nat)
    (h : ∀ i, i < l.length → f i = l.getD i 0) : fnToList f l.length = l := by
  apply List.ext_getElem (by simp [fnToList])
  intro i h1 h2
  simp only [fnToList, List.getElem_map, List.getElem_range]
  rw [h i h2, List.getD_eq_getElem l 0 h2]

/-! Sanity checks against the end-to-end examples of the specification. -/

example :
    (fh_cobs_stuff_bytes false false (listFn [0x01, 0x02, 0x03]) 3 (fun _ => 0) 16).map
      (fun o => (o.err, o.ret, fnToList o.dst 5, o.oobWrite)) =
    some (.COBS_SUCCESS, 5, [0x04, 0x01, 0x02, 0x03, 0x00], false) := by decide

example :
    (fh_cobs_stuff_bytes false false (listFn [0x00]) 1 (fun _ => 0) 16).map
      (fun o => (o.err, o.ret, fnToList o.dst 3, o.oobWrite)) =
    some (.COBS_SUCCESS, 3, [0x01, 0x01, 0x00], false) := by decide

example :
    (fh_cobs_stuff_bytes false false (listFn [0x00, 0x00]) 2 (fun _ => 0) 16).map
      (fun o => (o.err, o.ret, fnToList o.dst 4, o.oobWrite)) =
    some (.COBS_SUCCESS, 4, [0x01, 0x01, 0x01, 0x00], false) := by decide

example :
    (fh_cobs_stuff_bytes false false (listFn [0x11, 0x22, 0x00, 0x33]) 4 (fun _ => 0) 16).map
      (fun o => (o.err, o.ret, fnToList o.dst 6, o.oobWrite)) =
    some (.COBS_SUCCESS, 6, [0x03, 0x11, 0x22, 0x02, 0x33, 0x00], false) := by decide

example : cobsEnc [] [0x11, 0x22, 0x00, 0x33] = [0x03, 0x11, 0x22, 0x02, 0x33, 0x00] := by
  decide

example :
    (fh_cobs_unstuff_bytes 32 false false (listFn [0x03, 0x11, 0x22, 0x02, 0x33, 0x00]) 6
        (fun _ => 0) 16).map
      (fun o => (o.err, o.ret, fnToList o.dst 4, o.oobWrite, o.oobRead)) =
    some (.COBS_SUCCESS, 4, [0x11, 0x22, 0x00, 0x33], false, false) := by decide

/-- C1: COBS round-trip. Stuffing a nonempty byte sequence `s` into a
large-enough destination succeeds with output `cobsEnc [] s`, whose bytes are
all nonzero except the single final `0x00` terminator; unstuffing that output
(with fuel equal to its length) returns exactly `s` with `COBS_SUCCESS`, and
neither direction touches memory outside the declared buffers. -/
theorem c1_cobs_round_trip (s : List Nat) (hlen : 1 ≤ s.length)
    (hbytes : ∀ b ∈ s, b < 256)
    (dst_length dst_length2 : Nat) (dst0 dst0' : Nat → Nat)
    (hcap1 : (cobsEnc [] s).length ≤ dst_length)
    (hcap2 : s.length < dst_length2) :
    ∃ o : CobsStuffOut,
      fh_cobs_stuff_bytes false false (listFn s) s.length dst0 dst_length = some o ∧
      o.err = .COBS_SUCCESS ∧ o.ret = (cobsEnc [] s).length ∧ o.oobWrite = false ∧
      fnToList o.dst o.ret = cobsEnc [] s ∧
      (∃ body, fnToList o.dst o.ret = body ++ [0x00] ∧ ∀ x ∈ body, x ≠ 0) ∧
      ∃ o2 : CobsUnstuffOut,
        fh_cobs_unstuff_bytes o.ret false false (listFn (fnToList o.dst o.ret)) o.ret
          dst0' dst_length2 = some o2 ∧
        o2.err = .COBS_SUCCESS ∧ o2.ret = s.length ∧
        o2.oobWrite = false ∧ o2.oobRead = false ∧
        fnToList o2.dst o2.ret = s := by
  have hency := cobsEnc_length_ge s ([] : List Nat)
  simp only [List.length_nil] at hency
  -- run the stuffing loop from the initial state
  obtain ⟨dstF, hrun, hdst⟩ := cobsStuffLoop_spec (listFn s) s.length dst_length
    (2 * s.length + 2) s [] []
    ⟨0, 0x01, 0, 1, 1, fun i => if i < dst_length then 0 else dst0 i, false⟩
    (by intro h; rw [h] at hlen; simp at hlen)
    (by intro j hj; simp [listFn])
    (by simp)
    (by simp)
    (by simp)
    (by simp)
    (by simp)
    (by simp)
    (by intro i hi; simp at hi)
    (by intro j hj; simp at hj)
    rfl
    (by simpa using hcap1)
    (by simp)
  simp only [List.length_nil, Nat.zero_add, List.nil_append] at hrun hdst
  have houtrun : fh_cobs_stuff_bytes false false (listFn s) s.length dst0 dst_length =
      some ⟨.COBS_SUCCESS, (cobsEnc [] s).length, dstF, false⟩ := by
    rw [fh_cobs_stuff_bytes]
    simp only [Bool.false_eq_true, if_false]
    rw [if_neg (by omega), if_neg (by omega)]
    exact hrun
  have hout : fnToList dstF (cobsEnc [] s).length = cobsEnc [] s := by
    exact fnToList_eq_of_getD dstF (cobsEnc [] s) hdst
  refine ⟨⟨.COBS_SUCCESS, (cobsEnc [] s).length, dstF, false⟩, houtrun, rfl, rfl, rfl,
    hout, ?_, ?_⟩
  · obtain ⟨body, hb, hnz⟩ := cobsEnc_body s [] (by simp)
    exact ⟨body, by rw [hout, hb], hnz⟩
  -- the unstuffing side works on the encoded stream, seen block by block
  obtain ⟨d0, bs, hbs⟩ : ∃ d0 bs, blocksOf [] s = d0 :: bs := by
    cases h : blocksOf ([] : List Nat) s with
    | nil => exact absurd h (blocksOf_ne_nil s [])
    | cons a b => exact ⟨a, b, rfl⟩
  have henc2 : cobsEnc [] s = cobsBlocksEnc (d0 :: bs) := by
    rw [cobsEnc_eq_blocks s [], hbs]
  have hdec2 : cobsBlocksDec (d0 :: bs) = s := by
    rw [← hbs, cobsBlocksDec_blocksOf s []]
    simp
  have hwf := blocksOf_wf s ([] : List Nat) (by simp)
  rw [hbs] at hwf
  obtain ⟨dstF2, hrun2, _, hdat2⟩ := cobsUnstuffLoop_blocks
    (listFn (cobsEnc [] s)) (cobsEnc [] s).length dst_length2
    bs d0 0 0 (cobsEnc [] s).length dst0'
    (hwf d0 (by simp))
    (fun d' hd' => hwf d' (by simp [hd']))
    (by
      intro j hj
      rw [← henc2] at hj ⊢
      simp [listFn])
    (by rw [← henc2]; omega)
    (by rw [hdec2]; simpa using hcap2)
    (by rw [← henc2])
  rw [hdec2] at hrun2 hdat2
  simp only [Nat.zero_add] at hrun2 hdat2
  have hread0 : listFn (cobsEnc [] s) 0 = d0.length + 1 := by
    rw [henc2]
    simp [listFn, cobsBlocksEnc]
  refine ⟨⟨.COBS_SUCCESS, s.length, dstF2, false, false⟩, ?_, rfl, rfl, rfl, rfl, ?_⟩
  · rw [hout, fh_cobs_unstuff_bytes]
    simp only [Bool.false_eq_true, if_false]
    rw [if_neg (by omega), if_neg (by omega), hread0,
      show decide ((cobsEnc [] s).length = 0) = false from by
        simp only [decide_eq_false_iff_not]
        omega]
    exact hrun2
  · refine fnToList_eq_of_getD dstF2 s ?_
    intro i hi
    exact hdat2 i hi

/-- Witness for C1 at the specification's example 4, `s = 11 22 00 33`. -/
theorem c1_cobs_round_trip_witness :
    ∃ o : CobsStuffOut,
      fh_cobs_stuff_bytes false false (listFn [0x11, 0x22, 0x00, 0x33]) 4 (fun _ => 0) 6 =
        some o ∧
      o.err = .COBS_SUCCESS ∧ o.ret = 6 ∧ o.oobWrite = false ∧
      fnToList o.dst o.ret = [0x03, 0x11, 0x22, 0x02, 0x33, 0x00] ∧
      (∃ body, fnToList o.dst o.ret = body ++ [0x00] ∧ ∀ x ∈ body, x ≠ 0) ∧
      ∃ o2 : CobsUnstuffOut,
        fh_cobs_unstuff_bytes o.ret false false (listFn (fnToList o.dst o.ret)) o.ret
          (fun _ => 0) 5 = some o2 ∧
        o2.err = .COBS_SUCCESS ∧ o2.ret = 4 ∧
        o2.oobWrite = false ∧ o2.oobRead = false ∧
        fnToList o2.dst o2.ret = [0x11, 0x22, 0x00, 0x33] :=
  c1_cobs_round_trip [0x11, 0x22, 0x00, 0x33] (by decide) (by decide) 6 5
    (fun _ => 0) (fun _ => 0) (by decide) (by decide)

/-- C5: the encoding of `[0x01]` is 3 bytes, yet with a 2-byte destination
(exactly one byte too small) `fh_cobs_stuff_bytes` reports `COBS_SUCCESS`
and returns 3, having written the terminator at offset 2 — at the
destination capacity — instead of failing with
`COBS_ERROR_DST_BUFFER_OVERFLOW` and returning 0. -/
theorem c5_stuff_dst_one_short_succeeds_oob :
    (cobsEnc [] [0x01]).length = 3 ∧
    (fh_cobs_stuff_bytes false false (listFn [0x01]) 1 (fun _ => 0) 2).map
      (fun o => (o.err, o.ret, o.oobWrite)) = some (.COBS_SUCCESS, 3, true) := by
  decide

/-- C6: on source `[0x05, 0x01]` of declared length 2 — a block-length byte
pointing past the end of the input — `fh_cobs_unstuff_bytes` dereferences
source indices at and beyond `src_length` (`oobRead = true`) and, when the
out-of-bounds memory happens to hold zeros, reports `COBS_SUCCESS` with 4
output bytes instead of failing with `COBS_ERROR_INVALID_STUFFING`. -/
theorem c6_unstuff_reads_past_end :
    (fh_cobs_unstuff_bytes 16 false false (listFn [0x05, 0x01]) 2 (fun _ => 0) 16).map
      (fun o => (o.err, o.ret, o.oobRead)) = some (.COBS_SUCCESS, 4, true) := by
  decide

set_option maxRecDepth 8192 in
/-- The documented residue property of the modelled CRC (`fh_crc.h`,
`CRC_16_OK`), checked on a sample message. -/
theorem crc16_residue_e2f0 :
    (let c := fh_crc_calculate_crc16 [0x31, 0x32, 0x33]
     fh_crc_calculate_crc16 ([0x31, 0x32, 0x33] ++ [c / 256, c % 256])) = CRC_16_OK := by
  decide

example :
    (fh_packet_decode false false [0x06] (fun _ => 0) 16).err = .PACKET_SUCCESS ∧
    (fh_packet_decode false false [0x06] (fun _ => 0) 16).packet_id = some ACK_PACKET ∧
    (fh_packet_decode false false [0x06, 0x00] (fun _ => 0) 16).err =
      .PACKET_ERROR_INVALID_LENGTH := by
  decide

theorem crc16_bit_lt (c : Nat) : crc16_bit c < 65536 := by
  unfold crc16_bit
  split
  · have := Nat.and_le_right (n := (c <<< 1) ^^^ 0x1021) (m := 0xFFFF)
    omega
  · have := Nat.and_le_right (n := c <<< 1) (m := 0xFFFF)
    omega

theorem crc16_foldl_lt (l : List Nat) : ∀ c, l.foldl crc16_byte c < 65536 ∨ l = [] := by
  induction l with
  | nil => intro c; right; rfl
  | cons b rest ih =>
    intro c
    left
    rcases ih (crc16_byte c b) with h | h
    · simpa using h
    · subst h
      simpa [crc16_byte] using crc16_bit_lt _

theorem crc16_lt (l : List Nat) : fh_crc_calculate_crc16 l < 65536 := by
  unfold fh_crc_calculate_crc16
  rcases crc16_foldl_lt l 0xFFFF with h | h
  · exact Nat.xor_lt_two_pow (n := 16) h (by norm_num)
  · subst h
    decide

theorem u32sub_small (a b : Nat) (h1 : b ≤ a) (h2 : a < 2 ^ 32) : u32sub a b = a - b := by
  unfold u32sub
  have hb : b % 2 ^ 32 = b := Nat.mod_eq_of_lt (by omega)
  rw [hb, show a + 2 ^ 32 - b = (a - b) + 2 ^ 32 by omega, Nat.add_mod_right]
  exact Nat.mod_eq_of_lt (by omega)

/-- Storing the byte-swapped CRC on a little-endian host puts it big-endian
on the wire. -/
theorem u16_store_swap (c : Nat) (hc : c < 65536) :
    u16_store_le (LITTLE_TO_BIG_SHORT c) = [c / 256, c % 256] := by
  unfold u16_store_le LITTLE_TO_BIG_SHORT
  obtain ⟨q, r, rfl, hq, hr⟩ : ∃ q r, c = q * 256 + r ∧ q < 256 ∧ r < 256 :=
    ⟨c / 256, c % 256, by omega, by omega, by omega⟩
  have e1 : (q * 256 + r) % 256 = r := by omega
  have e2 : (q * 256 + r) / 256 = q := by omega
  rw [e1, e2, Nat.mod_eq_of_lt hq]
  have e3 : (r * 256 + q) % 256 = q := by omega
  have e4 : (r * 256 + q) / 256 = r := by omega
  rw [e3, e4, Nat.mod_eq_of_lt hr]

/-- Reading two wire bytes little-endian and swapping recovers the CRC. -/
theorem u16_load_swap (c : Nat) (hc : c < 65536) :
    LITTLE_TO_BIG_SHORT (u16_load_le (c / 256) (c % 256)) = c := by
  unfold u16_load_le LITTLE_TO_BIG_SHORT
  obtain ⟨q, r, rfl, hq, hr⟩ : ∃ q r, c = q * 256 + r ∧ q < 256 ∧ r < 256 :=
    ⟨c / 256, c % 256, by omega, by omega, by omega⟩
  have e1 : (q * 256 + r) % 256 = r := by omega
  have e2 : (q * 256 + r) / 256 = q := by omega
  rw [e1, e2, Nat.mod_eq_of_lt hq, Nat.mod_eq_of_lt hr]
  have e3 : (q + r * 256) % 256 = q := by omega
  have e4 : (q + r * 256) / 256 = r := by omega
  rw [e3, e4, Nat.mod_eq_of_lt hr]

/-- Round trip for the data-carrying packets (`PROTOCOL`/`END_OF_TRANSFER`):
encoding produces `id ‖ payload ‖ crc16_BE` and decoding validates the CRC
and returns the same id and payload. -/
theorem c2_aux_data (pid : Nat) (hpid : pid = PROTOCOL_PACKET ∨ pid = END_OF_TRANSFER_PACKET)
    (payload : List Nat) (hp : 1 ≤ payload.length)
    (dstE dstD : Nat → Nat) (encCap decCap : Nat)
    (hcapE : payload.length + 3 ≤ encCap) (hcapE32 : encCap < 2 ^ 32)
    (hcapD : payload.length ≤ decCap) :
    ∃ eo : PacketOut,
      fh_packet_encode pid false false payload payload.length dstE encCap = eo ∧
      eo.err = .PACKET_SUCCESS ∧ eo.ret = payload.length + 3 ∧
      ∃ dec : PacketDecodeOut,
        fh_packet_decode false false (fnToList eo.dst eo.ret) dstD decCap = dec ∧
        dec.err = .PACKET_SUCCESS ∧ dec.packet_id = some pid ∧
        dec.ret = payload.length ∧ fnToList dec.dst dec.ret = payload := by
  have hne6 : pid ≠ ACK_PACKET := by rcases hpid with rfl | rfl <;> decide
  have hne9 : pid ≠ NAK_PACKET := by rcases hpid with rfl | rfl <;> decide
  have hneAA : pid ≠ VERSION_PACKET := by rcases hpid with rfl | rfl <;> decide
  have hne0F : pid ≠ READY_TO_READ_PACKET := by rcases hpid with rfl | rfl <;> decide
  have hsub1 : u32sub encCap 1 = encCap - 1 :=
    u32sub_small _ _ (by omega) hcapE32
  have henc_eq : fh_packet_encode pid false false payload payload.length dstE encCap =
      ⟨.PACKET_SUCCESS, PACKET_ID_SIZE + payload.length + 2,
        (memscpyFn (memscpyFn (updFn dstE 0 pid) PACKET_ID_SIZE
            (u32sub encCap PACKET_ID_SIZE) payload payload.length).1
          (PACKET_ID_SIZE + payload.length)
          (u32sub encCap PACKET_ID_SIZE)
          (u16_store_le (LITTLE_TO_BIG_SHORT (fh_crc_calculate_crc16
            (fnToList (memscpyFn (updFn dstE 0 pid) PACKET_ID_SIZE
              (u32sub encCap PACKET_ID_SIZE) payload payload.length).1
              (PACKET_ID_SIZE + payload.length))))) 2).1⟩ := by
    simp only [fh_packet_encode]
    rw [if_neg (by decide), if_neg hne6, if_neg hne9, if_neg hneAA, if_neg hne0F,
      if_pos hpid, if_neg (by decide), if_neg (by omega)]
  set d1 : Nat → Nat := updFn dstE 0 pid with hd1def
  set d2 : Nat → Nat := (memscpyFn d1 PACKET_ID_SIZE
    (u32sub encCap PACKET_ID_SIZE) payload payload.length).1 with hd2def
  have hd2 : ∀ i, d2 i =
      if 1 ≤ i ∧ i < 1 + payload.length then payload.getD (i - 1) 0 else d1 i := by
    intro i
    rw [hd2def]
    simp only [memscpyFn, hsub1, PACKET_ID_SIZE]
    rw [if_neg (by omega : ¬ encCap - 1 ≤ payload.length)]
  have hheadbytes : fnToList d2 (PACKET_ID_SIZE + payload.length) = pid :: payload := by
    rw [show PACKET_ID_SIZE + payload.length = (pid :: payload).length by
      simp [PACKET_ID_SIZE]; omega]
    refine fnToList_eq_of_getD _ _ ?_
    intro i hi
    simp only [List.length_cons] at hi
    rw [hd2 i]
    cases i with
    | zero =>
      rw [if_neg (by omega), hd1def, updFn_eq]
      rfl
    | succ j =>
      rw [if_pos (by omega), List.getD_cons_succ, Nat.add_sub_cancel]
  rw [hheadbytes] at henc_eq
  set crc : Nat := fh_crc_calculate_crc16 (pid :: payload) with hcrcdef
  have hcrc16 : crc < 65536 := crc16_lt _
  have hsw : u16_store_le (LITTLE_TO_BIG_SHORT crc) = [crc / 256, crc % 256] :=
    u16_store_swap _ hcrc16
  set d3 : Nat → Nat := (memscpyFn d2 (PACKET_ID_SIZE + payload.length)
    (u32sub encCap PACKET_ID_SIZE)
    (u16_store_le (LITTLE_TO_BIG_SHORT crc)) 2).1 with hd3def
  have hd3 : ∀ i, d3 i =
      if 1 + payload.length ≤ i ∧ i < 1 + payload.length + 2 then
        [crc / 256, crc % 256].getD (i - (1 + payload.length)) 0
      else d2 i := by
    intro i
    rw [hd3def]
    simp only [memscpyFn, hsub1, PACKET_ID_SIZE, hsw]
    rw [if_neg (by omega : ¬ encCap - 1 ≤ 2)]
  have hwire : fnToList d3 (PACKET_ID_SIZE + payload.length + 2) =
      pid :: (payload ++ [crc / 256, crc % 256]) := by
    rw [show PACKET_ID_SIZE + payload.length + 2 =
      (pid :: (payload ++ [crc / 256, crc % 256])).length by simp [PACKET_ID_SIZE]; omega]
    refine fnToList_eq_of_getD _ _ ?_
    intro i hi
    simp only [List.length_cons, List.length_append, List.length_cons,
      List.length_nil] at hi
    rw [hd3 i]
    rcases Nat.lt_trichotomy i (1 + payload.length) with hc | hc | hc
    · rw [if_neg (by omega), hd2 i]
      cases i with
      | zero =>
        rw [if_neg (by omega), hd1def, updFn_eq]
        rfl
      | succ j =>
        rw [if_pos (by omega), List.getD_cons_succ,
          List.getD_append _ _ _ _ (by omega), Nat.add_sub_cancel]
    · rw [if_pos (by omega), ← hc]
      rw [show i - i = 0 by omega]
      obtain ⟨j, rfl⟩ : ∃ j, i = j + 1 := ⟨i - 1, by omega⟩
      rw [List.getD_cons_succ, List.getD_append_right _ _ _ _ (by omega),
        show j - payload.length = 0 by omega]
    · have hieq : i = 1 + payload.length + 1 := by omega
      subst hieq
      rw [if_pos (by omega)]
      have h2 : (pid :: (payload ++ [crc / 256, crc % 256])).getD
          (1 + payload.length + 1) 0 = crc % 256 := by
        rw [List.getD_cons_succ, List.getD_append_right _ _ _ _ (by omega),
          show 1 + payload.length - payload.length = 1 by omega]
        rfl
      rw [h2, show 1 + payload.length + 1 - (1 + payload.length) = 1 by omega]
      rfl
  refine ⟨_, henc_eq, rfl, by simp [PACKET_ID_SIZE]; omega, ?_⟩
  -- decode side
  have hlst : fnToList d3 (PACKET_ID_SIZE + payload.length + 2) =
      pid :: (payload ++ [crc / 256, crc % 256]) := hwire
  rw [show (⟨.PACKET_SUCCESS, PACKET_ID_SIZE + payload.length + 2, d3⟩ : PacketOut).dst =
    d3 from rfl, show (⟨.PACKET_SUCCESS, PACKET_ID_SIZE + payload.length + 2, d3⟩ :
    PacketOut).ret = PACKET_ID_SIZE + payload.length + 2 from rfl, hlst]
  set lst : List Nat := pid :: (payload ++ [crc / 256, crc % 256]) with hlstdef
  have hllen : lst.length = payload.length + 3 := by
    rw [hlstdef]
    simp
  have hgd0 : lst.getD 0 0 = pid := by rw [hlstdef]; rfl
  have htake : lst.take (lst.length - 2) = pid :: payload := by
    rw [hlstdef]
    simp only [List.length_cons, List.length_append, List.length_cons, List.length_nil]
    rw [show payload.length + (2 + 1) - 2 = payload.length + 1 by omega]
    rw [List.take_succ_cons, List.take_left]
  have hgd1 : lst.getD (lst.length - 2) 0 = crc / 256 := by
    rw [hlstdef] at *
    simp only [List.length_cons, List.length_append, List.length_cons,
      List.length_nil]
    rw [show payload.length + (2 + 1) - 2 = payload.length + 1 by omega,
      List.getD_cons_succ, List.getD_append_right _ _ _ _ (by omega), Nat.sub_self]
    rfl
  have hgd2 : lst.getD (lst.length - 1) 0 = crc % 256 := by
    rw [hlstdef] at *
    simp only [List.length_cons, List.length_append, List.length_cons,
      List.length_nil]
    rw [show payload.length + (2 + 1) - 1 = payload.length + 1 + 1 by omega,
      List.getD_cons_succ, List.getD_append_right _ _ _ _ (by omega),
      show payload.length + 1 - payload.length = 1 by omega]
    rfl
  have hdec_eq : fh_packet_decode false false lst dstD decCap =
      ⟨.PACKET_SUCCESS, lst.length - PACKET_ID_SIZE - 2, some (lst.getD 0 0),
        (memscpyFn dstD 0 decCap (lst.drop PACKET_ID_SIZE)
          (lst.length - PACKET_ID_SIZE - 2)).1⟩ := by
    simp only [fh_packet_decode]
    rw [if_neg (by decide), if_neg (by decide), if_neg (by omega),
      if_neg (by rw [hgd0]; exact hne6), if_neg (by rw [hgd0]; exact hne9),
      if_neg (by rw [hgd0]; exact hneAA), if_pos (by rw [hgd0]; exact hpid),
      if_neg (by simp [PACKET_ID_SIZE]; omega),
      if_neg (by simp only [PACKET_ID_SIZE]; omega),
      if_neg (by
        rw [htake, hgd1, hgd2, ← hcrcdef, u16_load_swap crc hcrc16]
        exact not_not_intro rfl)]
  refine ⟨_, hdec_eq, rfl, by rw [hgd0], by simp [PACKET_ID_SIZE]; omega, ?_⟩
  have hret : lst.length - PACKET_ID_SIZE - 2 = payload.length := by
    simp only [PACKET_ID_SIZE]
    omega
  dsimp only
  rw [hret]
  refine fnToList_eq_of_getD _ _ ?_
  intro i hi
  simp only [memscpyFn]
  have hcs : (if decCap ≤ payload.length then decCap else payload.length) =
      payload.length := by
    rcases le_or_lt decCap payload.length with h | h
    · rw [if_pos h]
      omega
    · rw [if_neg (by omega)]
  rw [hcs, if_pos (by omega), hlstdef]
  simp only [PACKET_ID_SIZE, List.drop_succ_cons, List.drop_zero]
  rw [List.getD_append _ _ _ _ (by omega), Nat.sub_zero]

/-- Round trip for the single-byte control packets (`ACK`/`NAK`): encoding
emits exactly the id byte, and decoding that byte succeeds with the same id
and zero payload length. -/
theorem c2_aux_ctrl (pid : Nat) (hpid : pid = ACK_PACKET ∨ pid = NAK_PACKET)
    (dstE dstD : Nat → Nat) (encCap decCap : Nat) :
    ∃ eo : PacketOut,
      fh_packet_encode pid false false [] 0 dstE encCap = eo ∧
      eo.err = .PACKET_SUCCESS ∧ eo.ret = 1 ∧
      ∃ dec : PacketDecodeOut,
        fh_packet_decode false false (fnToList eo.dst eo.ret) dstD decCap = dec ∧
        dec.err = .PACKET_SUCCESS ∧ dec.packet_id = some pid ∧ dec.ret = 0 := by
  rcases hpid with rfl | rfl
  · have hlst : fnToList (updFn dstE 0 ACK_PACKET) 1 = [ACK_PACKET] := by
      rw [show (1 : Nat) = ([ACK_PACKET] : List Nat).length from rfl]
      refine fnToList_eq_of_getD _ _ ?_
      intro i hi
      simp only [List.length_cons, List.length_nil] at hi
      interval_cases i
      simp [updFn]
    have henc_eq : fh_packet_encode ACK_PACKET false false [] 0 dstE encCap =
        ⟨.PACKET_SUCCESS, PACKET_ID_SIZE, updFn dstE 0 ACK_PACKET⟩ := rfl
    refine ⟨_, henc_eq, rfl, rfl, ?_⟩
    dsimp only
    rw [show PACKET_ID_SIZE = 1 from rfl, hlst]
    exact ⟨⟨.PACKET_SUCCESS, 0, some ACK_PACKET, dstD⟩, rfl, rfl, rfl, rfl⟩
  · have hlst : fnToList (updFn dstE 0 NAK_PACKET) 1 = [NAK_PACKET] := by
      rw [show (1 : Nat) = ([NAK_PACKET] : List Nat).length from rfl]
      refine fnToList_eq_of_getD _ _ ?_
      intro i hi
      simp only [List.length_cons, List.length_nil] at hi
      interval_cases i
      simp [updFn]
    have henc_eq : fh_packet_encode NAK_PACKET false false [] 0 dstE encCap =
        ⟨.PACKET_SUCCESS, PACKET_ID_SIZE, updFn dstE 0 NAK_PACKET⟩ := rfl
    refine ⟨_, henc_eq, rfl, rfl, ?_⟩
    dsimp only
    rw [show PACKET_ID_SIZE = 1 from rfl, hlst]
    exact ⟨⟨.PACKET_SUCCESS, 0, some NAK_PACKET, dstD⟩, rfl, rfl, rfl, rfl⟩

/-- Decoding a well-formed `VERSION` wire image (any correct CRC bytes). -/
theorem version_decode_aux (dstD : Nat → Nat) (decCap c : Nat) (hc : c < 65536)
    (hcrc : fh_crc_calculate_crc16
      [VERSION_PACKET, PACKET_LAYER_MAJOR_ID, PACKET_LAYER_MINOR_ID] = c) :
    fh_packet_decode false false
      [VERSION_PACKET, PACKET_LAYER_MAJOR_ID, PACKET_LAYER_MINOR_ID,
        c / 256, c % 256] dstD decCap =
      ⟨.PACKET_SUCCESS, 0, some VERSION_PACKET, dstD⟩ := by
  have hb0 : ([VERSION_PACKET, PACKET_LAYER_MAJOR_ID, PACKET_LAYER_MINOR_ID,
      c / 256, c % 256] : List Nat).getD 0 0 = VERSION_PACKET := rfl
  simp only [fh_packet_decode]
  rw [if_neg (by decide), if_neg (by decide), if_neg (by simp),
    if_neg (by rw [hb0]; decide), if_neg (by rw [hb0]; decide),
    if_pos hb0,
    if_neg (by simp [PACKET_ID_SIZE, VERSION_PACKET_SIZE]),
    if_neg (by
      rw [show ([VERSION_PACKET, PACKET_LAYER_MAJOR_ID, PACKET_LAYER_MINOR_ID,
        c / 256, c % 256] : List Nat).getD 3 0 = c / 256 from rfl,
        show ([VERSION_PACKET, PACKET_LAYER_MAJOR_ID, PACKET_LAYER_MINOR_ID,
        c / 256, c % 256] : List Nat).getD 4 0 = c % 256 from rfl,
        show ([VERSION_PACKET, PACKET_LAYER_MAJOR_ID, PACKET_LAYER_MINOR_ID,
        c / 256, c % 256] : List Nat).take
          (PACKET_ID_SIZE + VERSION_PACKET_SIZE) =
        [VERSION_PACKET, PACKET_LAYER_MAJOR_ID, PACKET_LAYER_MINOR_ID] from rfl,
        u16_load_swap c hc, hcrc]
      exact not_not_intro rfl),
    if_pos (⟨rfl, rfl⟩ : ([VERSION_PACKET, PACKET_LAYER_MAJOR_ID,
      PACKET_LAYER_MINOR_ID, c / 256, c % 256] : List Nat).getD 1 0 =
        PACKET_LAYER_MAJOR_ID ∧
      ([VERSION_PACKET, PACKET_LAYER_MAJOR_ID, PACKET_LAYER_MINOR_ID,
        c / 256, c % 256] : List Nat).getD 2 0 = PACKET_LAYER_MINOR_ID)]

/-- Decoding a well-formed `READY_TO_READ` wire image (any correct CRC
bytes). -/
theorem rtr_decode_aux (dstD : Nat → Nat) (decCap c : Nat) (hc : c < 65536)
    (hcrc : fh_crc_calculate_crc16 [READY_TO_READ_PACKET] = c) :
    fh_packet_decode false false [READY_TO_READ_PACKET, c / 256, c % 256]
      dstD decCap =
      ⟨.PACKET_SUCCESS, 0, some READY_TO_READ_PACKET, dstD⟩ := by
  have hb0 : ([READY_TO_READ_PACKET, c / 256, c % 256] : List Nat).getD 0 0 =
      READY_TO_READ_PACKET := rfl
  simp only [fh_packet_decode]
  rw [if_neg (by decide), if_neg (by decide), if_neg (by simp),
    if_neg (by rw [hb0]; decide), if_neg (by rw [hb0]; decide),
    if_neg (by rw [hb0]; decide), if_neg (by rw [hb0]; decide),
    if_pos hb0,
    if_neg (by simp [PACKET_ID_SIZE]),
    if_neg (by
      rw [show ([READY_TO_READ_PACKET, c / 256, c % 256] :
        List Nat).getD 1 0 = c / 256 from rfl,
        show ([READY_TO_READ_PACKET, c / 256, c % 256] :
        List Nat).getD 2 0 = c % 256 from rfl,
        show ([READY_TO_READ_PACKET, c / 256, c % 256] : List Nat).take
          (([READY_TO_READ_PACKET, c / 256, c % 256] : List Nat).length - 2) =
        [READY_TO_READ_PACKET] from rfl,
        u16_load_swap c hc, hcrc]
      exact not_not_intro rfl)]
  rw [hb0]

/-- Round trip for the `VERSION` packet: encoding emits
`AA 01 00 ‖ crc16_BE` and decoding succeeds (id `VERSION`, matching layer
version, zero payload length). -/
theorem c2_aux_version (dstE dstD : Nat → Nat) (encCap decCap : Nat)
    (hcapE : 5 ≤ encCap) (hcapE32 : encCap < 2 ^ 32) :
    ∃ eo : PacketOut,
      fh_packet_encode VERSION_PACKET false false [] 0 dstE encCap = eo ∧
      eo.err = .PACKET_SUCCESS ∧ eo.ret = 5 ∧
      ∃ dec : PacketDecodeOut,
        fh_packet_decode false false (fnToList eo.dst eo.ret) dstD decCap = dec ∧
        dec.err = .PACKET_SUCCESS ∧ dec.packet_id = some VERSION_PACKET ∧
        dec.ret = 0 := by
  have hsub : u32sub encCap (PACKET_ID_SIZE + VERSION_PACKET_SIZE) = encCap - 3 := by
    rw [show PACKET_ID_SIZE + VERSION_PACKET_SIZE = 3 from rfl]
    exact u32sub_small _ _ (by omega) hcapE32
  have henc_eq : fh_packet_encode VERSION_PACKET false false [] 0 dstE encCap =
      ⟨.PACKET_SUCCESS, PACKET_ID_SIZE + VERSION_PACKET_SIZE + 2,
        (memscpyFn (updFn (updFn (updFn dstE 0 VERSION_PACKET) 1
            PACKET_LAYER_MAJOR_ID) 2 PACKET_LAYER_MINOR_ID)
          (PACKET_ID_SIZE + VERSION_PACKET_SIZE)
          (u32sub encCap (PACKET_ID_SIZE + VERSION_PACKET_SIZE))
          (u16_store_le (LITTLE_TO_BIG_SHORT (fh_crc_calculate_crc16
            (fnToList (updFn (updFn (updFn dstE 0 VERSION_PACKET) 1
              PACKET_LAYER_MAJOR_ID) 2 PACKET_LAYER_MINOR_ID)
              (PACKET_ID_SIZE + VERSION_PACKET_SIZE))))) 2).1⟩ := rfl
  set d1 : Nat → Nat := updFn (updFn (updFn dstE 0 VERSION_PACKET) 1
    PACKET_LAYER_MAJOR_ID) 2 PACKET_LAYER_MINOR_ID with hd1def
  have hpre : fnToList d1 (PACKET_ID_SIZE + VERSION_PACKET_SIZE) =
      [VERSION_PACKET, PACKET_LAYER_MAJOR_ID, PACKET_LAYER_MINOR_ID] := by
    rw [show PACKET_ID_SIZE + VERSION_PACKET_SIZE =
      ([VERSION_PACKET, PACKET_LAYER_MAJOR_ID, PACKET_LAYER_MINOR_ID] :
        List Nat).length from rfl]
    refine fnToList_eq_of_getD _ _ ?_
    intro i hi
    simp only [List.length_cons, List.length_nil] at hi
    interval_cases i
    · rw [hd1def, updFn_ne _ _ _ _ (by decide), updFn_ne _ _ _ _ (by decide),
        updFn_eq]
      rfl
    · rw [hd1def, updFn_ne _ _ _ _ (by decide), updFn_eq]
      rfl
    · rw [hd1def, updFn_eq]
      rfl
  rw [hpre] at henc_eq
  set vcrc : Nat := fh_crc_calculate_crc16
    [VERSION_PACKET, PACKET_LAYER_MAJOR_ID, PACKET_LAYER_MINOR_ID] with hvcrcdef
  have hv16 : vcrc < 65536 := crc16_lt _
  have hsw : u16_store_le (LITTLE_TO_BIG_SHORT vcrc) = [vcrc / 256, vcrc % 256] :=
    u16_store_swap _ hv16
  set d2 : Nat → Nat := (memscpyFn d1 (PACKET_ID_SIZE + VERSION_PACKET_SIZE)
    (u32sub encCap (PACKET_ID_SIZE + VERSION_PACKET_SIZE))
    (u16_store_le (LITTLE_TO_BIG_SHORT vcrc)) 2).1 with hd2def
  have hd2 : ∀ i, d2 i =
      if PACKET_ID_SIZE + VERSION_PACKET_SIZE ≤ i ∧
          i < PACKET_ID_SIZE + VERSION_PACKET_SIZE + 2 then
        [vcrc / 256, vcrc % 256].getD (i - (PACKET_ID_SIZE + VERSION_PACKET_SIZE)) 0
      else d1 i := by
    intro i
    rw [hd2def]
    simp only [memscpyFn, hsub, hsw]
    have hcs : (if encCap - 3 ≤ 2 then encCap - 3 else 2) = 2 := by
      rcases le_or_lt (encCap - 3) 2 with h | h
      · rw [if_pos h]
        omega
      · rw [if_neg (by omega)]
    rw [hcs]
  have hwire : fnToList d2 (PACKET_ID_SIZE + VERSION_PACKET_SIZE + 2) =
      [VERSION_PACKET, PACKET_LAYER_MAJOR_ID, PACKET_LAYER_MINOR_ID,
        vcrc / 256, vcrc % 256] := by
    rw [show PACKET_ID_SIZE + VERSION_PACKET_SIZE + 2 =
      ([VERSION_PACKET, PACKET_LAYER_MAJOR_ID, PACKET_LAYER_MINOR_ID,
        vcrc / 256, vcrc % 256] : List Nat).length from rfl]
    refine fnToList_eq_of_getD _ _ ?_
    intro i hi
    simp only [List.length_cons, List.length_nil] at hi
    rw [hd2 i]
    interval_cases i
    · rw [if_neg (by decide), hd1def, updFn_ne _ _ _ _ (by decide),
        updFn_ne _ _ _ _ (by decide), updFn_eq]
      rfl
    · rw [if_neg (by decide), hd1def, updFn_ne _ _ _ _ (by decide), updFn_eq]
      rfl
    · rw [if_neg (by decide), hd1def, updFn_eq]
      rfl
    · rw [if_pos (by decide)]
      rfl
    · rw [if_pos (by decide)]
      rfl
  refine ⟨_, henc_eq, rfl, rfl, ?_⟩
  dsimp only
  rw [hwire]
  exact ⟨_, version_decode_aux dstD decCap vcrc hv16 hvcrcdef.symm, rfl, rfl, rfl⟩

/-- Round trip for the `READY_TO_READ` packet: encoding emits
`0F ‖ crc16_BE` and decoding succeeds (id `READY_TO_READ`, zero payload
length). -/
theorem c2_aux_rtr (dstE dstD : Nat → Nat) (encCap decCap : Nat)
    (hcapE : 3 ≤ encCap) (hcapE32 : encCap < 2 ^ 32) :
    ∃ eo : PacketOut,
      fh_packet_encode READY_TO_READ_PACKET false false [] 0 dstE encCap = eo ∧
      eo.err = .PACKET_SUCCESS ∧ eo.ret = 3 ∧
      ∃ dec : PacketDecodeOut,
        fh_packet_decode false false (fnToList eo.dst eo.ret) dstD decCap = dec ∧
        dec.err = .PACKET_SUCCESS ∧ dec.packet_id = some READY_TO_READ_PACKET ∧
        dec.ret = 0 := by
  have hsub : u32sub encCap PACKET_ID_SIZE = encCap - 1 := by
    rw [show PACKET_ID_SIZE = 1 from rfl]
    exact u32sub_small _ _ (by omega) hcapE32
  have henc_eq : fh_packet_encode READY_TO_READ_PACKET false false [] 0 dstE encCap =
      ⟨.PACKET_SUCCESS, PACKET_ID_SIZE + 2,
        (memscpyFn (updFn dstE 0 READY_TO_READ_PACKET) PACKET_ID_SIZE
          (u32sub encCap PACKET_ID_SIZE)
          (u16_store_le (LITTLE_TO_BIG_SHORT (fh_crc_calculate_crc16
            (fnToList (updFn dstE 0 READY_TO_READ_PACKET) PACKET_ID_SIZE)))) 2).1⟩ :=
    rfl
  set d1 : Nat → Nat := updFn dstE 0 READY_TO_READ_PACKET with hd1def
  have hpre : fnToList d1 PACKET_ID_SIZE = [READY_TO_READ_PACKET] := by
    rw [show PACKET_ID_SIZE = ([READY_TO_READ_PACKET] : List Nat).length from rfl]
    refine fnToList_eq_of_getD _ _ ?_
    intro i hi
    simp only [List.length_cons, List.length_nil] at hi
    interval_cases i
    rw [hd1def, updFn_eq]
    rfl
  rw [hpre] at henc_eq
  set rcrc : Nat := fh_crc_calculate_crc16 [READY_TO_READ_PACKET] with hrcrcdef
  have hr16 : rcrc < 65536 := crc16_lt _
  have hsw : u16_store_le (LITTLE_TO_BIG_SHORT rcrc) = [rcrc / 256, rcrc % 256] :=
    u16_store_swap _ hr16
  set d2 : Nat → Nat := (memscpyFn d1 PACKET_ID_SIZE (u32sub encCap PACKET_ID_SIZE)
    (u16_store_le (LITTLE_TO_BIG_SHORT rcrc)) 2).1 with hd2def
  have hd2 : ∀ i, d2 i =
      if PACKET_ID_SIZE ≤ i ∧ i < PACKET_ID_SIZE + 2 then
        [rcrc / 256, rcrc % 256].getD (i - PACKET_ID_SIZE) 0
      else d1 i := by
    intro i
    rw [hd2def]
    simp only [memscpyFn, hsub, hsw]
    have hcs : (if encCap - 1 ≤ 2 then encCap - 1 else 2) = 2 := by
      rcases le_or_lt (encCap - 1) 2 with h | h
      · rw [if_pos h]
        omega
      · rw [if_neg (by omega)]
    rw [hcs]
  have hwire : fnToList d2 (PACKET_ID_SIZE + 2) =
      [READY_TO_READ_PACKET, rcrc / 256, rcrc % 256] := by
    rw [show PACKET_ID_SIZE + 2 =
      ([READY_TO_READ_PACKET, rcrc / 256, rcrc % 256] : List Nat).length from rfl]
    refine fnToList_eq_of_getD _ _ ?_
    intro i hi
    simp only [List.length_cons, List.length_nil] at hi
    rw [hd2 i]
    interval_cases i
    · rw [if_neg (by decide), hd1def, updFn_eq]
      rfl
    · rw [if_pos (by decide)]
      rfl
    · rw [if_pos (by decide)]
      rfl
  refine ⟨_, henc_eq, rfl, rfl, ?_⟩
  dsimp only
  rw [hwire]
  exact ⟨_, rtr_decode_aux dstD decCap rcrc hr16 hrcrcdef.symm, rfl, rfl, rfl⟩

/-- C2: `fh_packet_encode` followed by `fh_packet_decode` is the identity for
every packet id, under the stated buffer capacities: data packets
(`PROTOCOL`/`END_OF_TRANSFER`) come back with the same id and payload;
`ACK`/`NAK` encode to the lone id byte and decode to the same id;
`VERSION` and `READY_TO_READ` encode to id ‖ (version) ‖ crc16_BE and
decode successfully, all with `PACKET_SUCCESS` and the documented encoded
lengths (payload+3, 1, 5, 3 respectively). -/
theorem c2_packet_round_trip (payload : List Nat) (hp : 1 ≤ payload.length)
    (dstE dstD : Nat → Nat) (encCap decCap : Nat)
    (hcapE : payload.length + 3 ≤ encCap) (hcapE5 : 5 ≤ encCap)
    (hcapE32 : encCap < 2 ^ 32) (hcapD : payload.length ≤ decCap) :
    (∀ pid, pid = PROTOCOL_PACKET ∨ pid = END_OF_TRANSFER_PACKET →
      ∃ eo : PacketOut,
        fh_packet_encode pid false false payload payload.length dstE encCap = eo ∧
        eo.err = .PACKET_SUCCESS ∧ eo.ret = payload.length + 3 ∧
        ∃ dec : PacketDecodeOut,
          fh_packet_decode false false (fnToList eo.dst eo.ret) dstD decCap = dec ∧
          dec.err = .PACKET_SUCCESS ∧ dec.packet_id = some pid ∧
          dec.ret = payload.length ∧ fnToList dec.dst dec.ret = payload) ∧
    (∀ pid, pid = ACK_PACKET ∨ pid = NAK_PACKET →
      ∃ eo : PacketOut,
        fh_packet_encode pid false false [] 0 dstE encCap = eo ∧
        eo.err = .PACKET_SUCCESS ∧ eo.ret = 1 ∧
        ∃ dec : PacketDecodeOut,
          fh_packet_decode false false (fnToList eo.dst eo.ret) dstD decCap = dec ∧
          dec.err = .PACKET_SUCCESS ∧ dec.packet_id = some pid ∧ dec.ret = 0) ∧
    (∃ eo : PacketOut,
      fh_packet_encode VERSION_PACKET false false [] 0 dstE encCap = eo ∧
      eo.err = .PACKET_SUCCESS ∧ eo.ret = 5 ∧
      ∃ dec : PacketDecodeOut,
        fh_packet_decode false false (fnToList eo.dst eo.ret) dstD decCap = dec ∧
        dec.err = .PACKET_SUCCESS ∧ dec.packet_id = some VERSION_PACKET ∧
        dec.ret = 0) ∧
    (∃ eo : PacketOut,
      fh_packet_encode READY_TO_READ_PACKET false false [] 0 dstE encCap = eo ∧
      eo.err = .PACKET_SUCCESS ∧ eo.ret = 3 ∧
      ∃ dec : PacketDecodeOut,
        fh_packet_decode false false (fnToList eo.dst eo.ret) dstD decCap = dec ∧
        dec.err = .PACKET_SUCCESS ∧ dec.packet_id = some READY_TO_READ_PACKET ∧
        dec.ret = 0) :=
  ⟨fun pid hpid => c2_aux_data pid hpid payload hp dstE dstD encCap decCap
      hcapE hcapE32 hcapD,
    fun pid hpid => c2_aux_ctrl pid hpid dstE dstD encCap decCap,
    c2_aux_version dstE dstD encCap decCap hcapE5 hcapE32,
    c2_aux_rtr dstE dstD encCap decCap (by omega) hcapE32⟩

/-- Witness for C2 at payload `[1, 2, 3]`, 16-byte encode buffer and 8-byte
decode buffer. -/
theorem c2_packet_round_trip_witness :
    (1 ≤ ([1, 2, 3] : List Nat).length ∧
      ([1, 2, 3] : List Nat).length + 3 ≤ 16 ∧ 5 ≤ 16 ∧ 16 < 2 ^ 32 ∧
      ([1, 2, 3] : List Nat).length ≤ 8) ∧
    ((∀ pid, pid = PROTOCOL_PACKET ∨ pid = END_OF_TRANSFER_PACKET →
      ∃ eo : PacketOut,
        fh_packet_encode pid false false [1, 2, 3] ([1, 2, 3] : List Nat).length
          (fun _ => 0) 16 = eo ∧
        eo.err = .PACKET_SUCCESS ∧ eo.ret = ([1, 2, 3] : List Nat).length + 3 ∧
        ∃ dec : PacketDecodeOut,
          fh_packet_decode false false (fnToList eo.dst eo.ret) (fun _ => 0) 8 =
            dec ∧
          dec.err = .PACKET_SUCCESS ∧ dec.packet_id = some pid ∧
          dec.ret = ([1, 2, 3] : List Nat).length ∧
          fnToList dec.dst dec.ret = [1, 2, 3]) ∧
    (∀ pid, pid = ACK_PACKET ∨ pid = NAK_PACKET →
      ∃ eo : PacketOut,
        fh_packet_encode pid false false [] 0 (fun _ => 0) 16 = eo ∧
        eo.err = .PACKET_SUCCESS ∧ eo.ret = 1 ∧
        ∃ dec : PacketDecodeOut,
          fh_packet_decode false false (fnToList eo.dst eo.ret) (fun _ => 0) 8 =
            dec ∧
          dec.err = .PACKET_SUCCESS ∧ dec.packet_id = some pid ∧ dec.ret = 0) ∧
    (∃ eo : PacketOut,
      fh_packet_encode VERSION_PACKET false false [] 0 (fun _ => 0) 16 = eo ∧
      eo.err = .PACKET_SUCCESS ∧ eo.ret = 5 ∧
      ∃ dec : PacketDecodeOut,
        fh_packet_decode false false (fnToList eo.dst eo.ret) (fun _ => 0) 8 =
          dec ∧
        dec.err = .PACKET_SUCCESS ∧ dec.packet_id = some VERSION_PACKET ∧
        dec.ret = 0) ∧
    (∃ eo : PacketOut,
      fh_packet_encode READY_TO_READ_PACKET false false [] 0 (fun _ => 0) 16 = eo ∧
      eo.err = .PACKET_SUCCESS ∧ eo.ret = 3 ∧
      ∃ dec : PacketDecodeOut,
        fh_packet_decode false false (fnToList eo.dst eo.ret) (fun _ => 0) 8 =
          dec ∧
        dec.err = .PACKET_SUCCESS ∧ dec.packet_id = some READY_TO_READ_PACKET ∧
        dec.ret = 0)) :=
  ⟨⟨by decide, by decide, by decide, by decide, by decide⟩,
    c2_packet_round_trip [1, 2, 3] (by decide) (fun _ => 0) (fun _ => 0) 16 8
      (by decide) (by decide) (by decide) (by decide)⟩

/-- C3: refuted at `write_len = 4000` (any buffer contents `s`).  The claim
(and spec) require `ceil(4000/4000) = 1` frame carrying all 4000 bytes with
id `END_OF_TRANSFER` and a nonzero last-fragment length.  The code instead
computes `packet_count = 1` with `transfer_size = 4000 % 4000 = 0`: the lone
`END_OF_TRANSFER` fragment carries 0 bytes, its encode fails with
`PACKET_ERROR_INVALID_LENGTH`, `*bytes_written` stays 0 and the write
reports failure — the 4000 data bytes are never transmitted. -/
theorem c3_write_multiple_of_4000_drops_data (s : List Nat) :
    hsuartWriteFrames s 4000 =
      [{ id := END_OF_TRANSFER_PACKET, off := 0, size := 0, ok := false }] ∧
    fh_transport_hsuart_write_model s 4000 = (0, false) ∧
    (fh_packet_encode END_OF_TRANSFER_PACKET false false [] 0 (fun _ => 0)
      MAX_HSUART_PACKET_SIZE).err = .PACKET_ERROR_INVALID_LENGTH :=
  ⟨rfl, rfl, rfl⟩

theorem vip_step_init (fs ft : Nat) :
    fh_tx_blocking_model ⟨.VIP_INIT, fs, ft⟩ =
      (⟨.VIP_SEND_DATA, 1, 53⟩, [.signedTable, .dataFrame]) := rfl

theorem vip_step_snt (fs ft : Nat) :
    fh_tx_blocking_model ⟨.VIP_SEND_NEXT_TABLE, fs, ft⟩ =
      (⟨.VIP_SEND_DATA, 1, 255⟩, [.chainedTable, .dataFrame]) := rfl

theorem vip_step_sd (fs ft : Nat) :
    fh_tx_blocking_model ⟨.VIP_SEND_DATA, fs, ft⟩ =
      (⟨if ft ≤ fs + 1 then .VIP_SEND_NEXT_TABLE else .VIP_SEND_DATA, fs + 1, ft⟩,
        [.dataFrame]) := rfl

theorem vipAfter_eq_closed : ∀ n, vipAfter n = vipAfterClosed n := by
  intro n
  induction n with
  | zero => rfl
  | succ n ih =>
    rw [show vipAfter (n + 1) = (fh_tx_blocking_model (vipAfter n)).1 from rfl, ih]
    by_cases h0 : n = 0
    · subst h0
      rw [show vipAfterClosed 0 = ⟨.VIP_INIT, 0, 53⟩ from rfl, vip_step_init]
      rfl
    by_cases h52 : n ≤ 51
    · have hv : vipAfterClosed n = ⟨.VIP_SEND_DATA, n, 53⟩ := by
        simp only [vipAfterClosed]
        rw [if_neg h0, if_pos (by omega)]
      have hv' : vipAfterClosed (n + 1) = ⟨.VIP_SEND_DATA, n + 1, 53⟩ := by
        simp only [vipAfterClosed]
        rw [if_neg (by omega), if_pos (by omega)]
      rw [hv, vip_step_sd, hv', if_neg (by omega)]
    by_cases h52e : n = 52
    · subst h52e
      rw [show vipAfterClosed 52 = ⟨.VIP_SEND_DATA, 52, 53⟩ from rfl, vip_step_sd]
      rfl
    by_cases h53 : n = 53
    · subst h53
      rw [show vipAfterClosed 53 = ⟨.VIP_SEND_NEXT_TABLE, 53, 53⟩ from rfl,
        vip_step_snt]
      rfl
    have h54 : 54 ≤ n := by omega
    by_cases hj : (n - 54) % 255 = 254
    · have hv : vipAfterClosed n = ⟨.VIP_SEND_NEXT_TABLE, 255, 255⟩ := by
        simp only [vipAfterClosed]
        rw [if_neg (by omega), if_neg (by omega), if_neg (by omega), if_pos hj]
      have hv' : vipAfterClosed (n + 1) = ⟨.VIP_SEND_DATA, 1, 255⟩ := by
        simp only [vipAfterClosed]
        rw [if_neg (by omega), if_neg (by omega), if_neg (by omega),
          if_neg (show ¬ (n + 1 - 54) % 255 = 254 by omega),
          show (n + 1 - 54) % 255 = 0 by omega]
      rw [hv, vip_step_snt, hv']
    by_cases hj253 : (n - 54) % 255 = 253
    · have hv : vipAfterClosed n = ⟨.VIP_SEND_DATA, 254, 255⟩ := by
        simp only [vipAfterClosed]
        rw [if_neg (by omega), if_neg (by omega), if_neg (by omega), if_neg hj,
          hj253]
      have hv' : vipAfterClosed (n + 1) = ⟨.VIP_SEND_NEXT_TABLE, 255, 255⟩ := by
        simp only [vipAfterClosed]
        rw [if_neg (by omega), if_neg (by omega), if_neg (by omega),
          if_pos (show (n + 1 - 54) % 255 = 254 by omega)]
      rw [hv, vip_step_sd, hv', if_pos (by omega)]
    · have hv : vipAfterClosed n = ⟨.VIP_SEND_DATA, (n - 54) % 255 + 1, 255⟩ := by
        simp only [vipAfterClosed]
        rw [if_neg (by omega), if_neg (by omega), if_neg (by omega), if_neg hj]
      have hv' : vipAfterClosed (n + 1) =
          ⟨.VIP_SEND_DATA, (n - 54) % 255 + 1 + 1, 255⟩ := by
        simp only [vipAfterClosed]
        rw [if_neg (by omega), if_neg (by omega), if_neg (by omega),
          if_neg (show ¬ (n + 1 - 54) % 255 = 254 by omega),
          show (n + 1 - 54) % 255 = (n - 54) % 255 + 1 by omega]
      rw [hv, vip_step_sd, hv', if_neg (by omega)]

/-- C4: VIP cadence.  Starting from `vipInit` (state `VIP_INIT`), with every
transmission acknowledged, call `n+1` of `fh_tx_blocking` transmits: the
signed table plus the caller's data on the first call; a chained table plus
the caller's data exactly when `n % 255 = 53` (calls 54, 309, 564, …); and
just the caller's data otherwise.  Hence every call carries exactly one
payload frame, 53 payload transmissions separate the signed table from the
first chained table (calls 1–53), and 255 separate consecutive chained
tables (calls 54+255m … 53+255(m+1)).  Moreover in state `VIP_SEND_DATA`
the call increments `frame_sent`, moves to `VIP_SEND_NEXT_TABLE` exactly
when `frame_sent ≥ frames_to_next_table`, and still transmits the caller's
data. -/
theorem c4_vip_cadence :
    (∀ n : Nat, (fh_tx_blocking_model (vipAfter n)).2 =
      if n = 0 then [.signedTable, .dataFrame]
      else if n % 255 = 53 then [.chainedTable, .dataFrame]
      else [.dataFrame]) ∧
    (∀ fs ft : Nat, fh_tx_blocking_model ⟨.VIP_SEND_DATA, fs, ft⟩ =
      (⟨if ft ≤ fs + 1 then .VIP_SEND_NEXT_TABLE else .VIP_SEND_DATA,
          fs + 1, ft⟩,
        [.dataFrame])) := by
  refine ⟨?_, fun fs ft => rfl⟩
  intro n
  rw [vipAfter_eq_closed n]
  by_cases h0 : n = 0
  · subst h0
    rfl
  by_cases h52 : n ≤ 52
  · rw [show vipAfterClosed n = ⟨.VIP_SEND_DATA, n, 53⟩ from by
      simp only [vipAfterClosed]
      rw [if_neg h0, if_pos h52], vip_step_sd]
    dsimp only
    rw [if_neg h0, if_neg (show ¬ n % 255 = 53 by omega)]
  by_cases h53 : n = 53
  · subst h53
    rfl
  by_cases hj : (n - 54) % 255 = 254
  · rw [show vipAfterClosed n = ⟨.VIP_SEND_NEXT_TABLE, 255, 255⟩ from by
      simp only [vipAfterClosed]
      rw [if_neg h0, if_neg (by omega), if_neg h53, if_pos hj], vip_step_snt]
    dsimp only
    rw [if_neg h0, if_pos (show n % 255 = 53 by omega)]
  · rw [show vipAfterClosed n = ⟨.VIP_SEND_DATA, (n - 54) % 255 + 1, 255⟩ from by
      simp only [vipAfterClosed]
      rw [if_neg h0, if_neg (by omega), if_neg h53, if_neg hj], vip_step_sd]
    dsimp only
    rw [if_neg h0, if_neg (show ¬ n % 255 = 53 by omega)]

theorem rxGo_single (oracle : Nat → Nat) :
    fh_transport_hsuart_rx_blocking_model oracle =
      if oracle 0 = 0 then (.READ_PORT_ERROR, 1) else (.SUCCESS, 1) := by
  rw [fh_transport_hsuart_rx_blocking_model,
    show (100 : Nat) = 99 + 1 from rfl, rxGo]
  by_cases h : oracle 0 = 0
  · rw [if_pos h, if_pos h]
  · rw [if_neg h, if_neg (by decide : ¬ (99 : Nat) = 0), if_neg h, if_neg h]

theorem txGo_bound (adds : Nat → Nat) (size : Nat) :
    ∀ retry bw attempt, (txGo adds size retry bw attempt).2 ≤ attempt + retry ∧
      ((txGo adds size retry bw attempt).1 = .SUCCESS ∨
        (txGo adds size retry bw attempt).1 = .READ_PORT_ERROR) := by
  intro retry
  induction retry with
  | zero =>
    intro bw attempt
    exact ⟨by simp [txGo], Or.inr rfl⟩
  | succ r ih =>
    intro bw attempt
    rw [txGo]
    by_cases h1 : bw + adds attempt = 0
    · rw [if_pos h1]
      exact ⟨by omega, Or.inr rfl⟩
    · rw [if_neg h1]
      by_cases h2 : r = 0
      · rw [if_pos h2]
        exact ⟨by omega, Or.inr rfl⟩
      · rw [if_neg h2]
        by_cases h3 : bw + adds attempt < size
        · rw [if_pos h3]
          refine ⟨?_, (ih (bw + adds attempt) (attempt + 1)).2⟩
          have := (ih (bw + adds attempt) (attempt + 1)).1
          omega
        · rw [if_neg h3]
          exact ⟨by omega, Or.inl rfl⟩

theorem txGo_stuck (adds : Nat → Nat) (size bw : Nat) (hbw : bw ≠ 0)
    (hlt : bw < size) (hz : ∀ a, 1 ≤ a → adds a = 0) :
    ∀ r a, 1 ≤ a → txGo adds size r bw a = (.READ_PORT_ERROR, a + r) := by
  intro r
  induction r with
  | zero =>
    intro a ha
    rw [txGo, Nat.add_zero]
  | succ r ih =>
    intro a ha
    rw [txGo, hz a ha, Nat.add_zero]
    rw [if_neg hbw]
    by_cases hr : r = 0
    · rw [if_pos hr, hr]
    · rw [if_neg hr, if_pos hlt, ih (a + 1) (by omega)]
      rw [show a + 1 + r = a + (r + 1) by omega]

/-- C7 counterexample, traced at a realizable input: a 4096-byte transfer
fragments into a 4000-byte `PROTOCOL` frame and a 96-byte
`END_OF_TRANSFER` frame (both encodable).  In the environment where the
first attempt's first fragment is transmitted and acknowledged but its
second is lost, and every later attempt makes no progress (e.g.
`wait_for_ready_to_read_packet` fails), `bytes_written` sticks at
4000 < 4096: the loop exhausts its 100 retries and
`fh_transport_hsuart_tx_blocking` returns `READ_PORT_ERROR` — not the
`WRITE_PORT_ERROR` the claim (and spec error table) assign to write
failures.  (Both failure returns in the tx loop are `READ_PORT_ERROR`,
`fh_transport_hsuart.c:1225,1232`.) -/
theorem c7_tx_exhaustion_read_port_error :
    hsuartWriteFrames (List.replicate 4096 0x41) 4096 =
      [{ id := PROTOCOL_PACKET, off := 0, size := 4000, ok := true },
       { id := END_OF_TRANSFER_PACKET, off := 4000, size := 96, ok := true }] ∧
    fh_transport_hsuart_tx_blocking_model (List.replicate 4096 0x41) 4096
      (fun attempt frag => attempt == 0 && frag == 0) =
      (.READ_PORT_ERROR, 100) ∧
    FhRes.READ_PORT_ERROR ≠ FhRes.WRITE_PORT_ERROR := by
  have hframes : hsuartWriteFrames (List.replicate 4096 0x41) 4096 =
      [{ id := PROTOCOL_PACKET, off := 0, size := 4000, ok := true },
       { id := END_OF_TRANSFER_PACKET, off := 4000, size := 96, ok := true }] :=
    rfl
  refine ⟨hframes, ?_, by decide⟩
  have key : ∀ adds : Nat → Nat, adds 0 = 4000 → (∀ a, 1 ≤ a → adds a = 0) →
      txGo adds 4096 100 0 0 = (.READ_PORT_ERROR, 100) := by
    intro adds h0 hS
    rw [show (100 : Nat) = 99 + 1 from rfl, txGo, h0]
    rw [if_neg (by omega : ¬ (0 + 4000 : Nat) = 0),
      if_neg (by decide : ¬ (99 : Nat) = 0),
      if_pos (by omega : (0 + 4000 : Nat) < 4096),
      show (0 + 4000 : Nat) = 4000 from rfl,
      txGo_stuck adds 4096 4000 (by omega) (by omega) hS 99 1 (by omega)]
  rw [fh_transport_hsuart_tx_blocking_model]
  refine key _ rfl ?_
  intro a ha
  obtain ⟨a', rfl⟩ : ∃ a', a = a' + 1 := ⟨a - 1, by omega⟩
  rfl

/-- C7 (amended): because `fh_transport_hsuart_read` returns exactly
`*bytes_read > 0`, `fh_transport_hsuart_rx_blocking` is a single-shot
read — the first empty read trips the error guard and a non-empty read
immediately satisfies the `while` exit, so its retry loop never iterates
(the counter is dead code): one attempt, `SUCCESS` when the read yields
bytes and `READ_PORT_ERROR` otherwise.  `fh_transport_hsuart_tx_blocking`
makes at most 100 write attempts and every outcome is `SUCCESS` or
`READ_PORT_ERROR` — never `WRITE_PORT_ERROR` — for every buffer, size and
per-fragment transmit/ack environment. -/
theorem c7_retry_bounds_amended :
    (∀ oracle : Nat → Nat,
      fh_transport_hsuart_rx_blocking_model oracle =
        if oracle 0 = 0 then (.READ_PORT_ERROR, 1) else (.SUCCESS, 1)) ∧
    (∀ (s : List Nat) (size : Nat) (env : Nat → Nat → Bool),
      (fh_transport_hsuart_tx_blocking_model s size env).2 ≤ 100 ∧
      ((fh_transport_hsuart_tx_blocking_model s size env).1 = .SUCCESS ∨
        (fh_transport_hsuart_tx_blocking_model s size env).1 =
          .READ_PORT_ERROR)) := by
  refine ⟨rxGo_single, fun s size env => ?_⟩
  refine ⟨?_, (txGo_bound (fun attempt =>
    txAttemptAdd (hsuartWriteFrames s size) (env attempt)) size 100 0 0).2⟩
  have h := (txGo_bound (fun attempt =>
    txAttemptAdd (hsuartWriteFrames s size) (env attempt)) size 100 0 0).1
  rw [fh_transport_hsuart_tx_blocking_model]
  omega

theorem scanEnd_le (xml : Nat → Nat) (last : Nat) :
    ∀ f off r, scanEnd xml last f off = some (some r) → r ≤ last + 7 := by
  intro f
  induction f with
  | zero =>
    intro off r h
    simp [scanEnd] at h
  | succ f ih =>
    intro off r h
    by_cases h0 : off ≤ last
    · rw [scanEnd, if_pos h0] at h
      repeat' split at h
      all_goals first
        | exact ih _ _ h
        | (obtain rfl : off + 7 = r := by simpa using h
           omega)
    · rw [scanEnd, if_neg h0] at h
      simp at h

theorem response_xml_parse_ret_le (fuel : Nat) (xml : Nat → Nat) (n r : Nat)
    (t v : Option Nat)
    (h : response_xml_parse fuel xml n = some (r, t, v)) (hr : r ≠ 0) :
    r ≤ n := by
  by_cases h12 : n < 12
  · rw [response_xml_parse, if_pos h12] at h
    simp only [Option.some.injEq, Prod.mk.injEq] at h
    exact absurd h.1.symm hr
  · rw [response_xml_parse, if_neg h12] at h
    rcases hA : scanData xml (n - 7) fuel 6 with _ | offA <;> rw [hA] at h
    · simp at h
    dsimp only at h
    rcases hB : scanTo xml (n - 7) 60 fuel offA with _ | ob <;> rw [hB] at h
    · simp at h
    rcases ob with _ | offLt
    · simp only [Option.some.injEq, Prod.mk.injEq] at h
      exact absurd h.1.symm hr
    dsimp only at h
    rcases hC : scanTo xml (n - 7) 32 fuel (offLt + 1) with _ | oc <;> rw [hC] at h
    · simp at h
    rcases oc with _ | offSp
    · simp only [Option.some.injEq, Prod.mk.injEq] at h
      exact absurd h.1.symm hr
    dsimp only at h
    rcases hD : scanClose xml (n - 7) fuel (offSp + 1) none with _ | pd <;>
      rw [hD] at h
    · simp at h
    obtain ⟨offD, vv⟩ := pd
    dsimp only at h
    rcases hE : scanEnd xml (n - 7) fuel offD with _ | oe <;> rw [hE] at h
    · simp at h
    rcases oe with _ | ret
    · simp only [Option.some.injEq, Prod.mk.injEq] at h
      exact absurd h.1.symm hr
    · simp only [Option.some.injEq, Prod.mk.injEq] at h
      obtain ⟨h1, -, -⟩ := h
      subst h1
      have := scanEnd_le xml (n - 7) fuel offD ret hE
      omega

/-- C8: when `response_xml_parse` recognizes a complete envelope (nonzero
returned length) whose tag is `response`, the dispatch in
`fh_rx_blocking_response_xml` copies the whole envelope (its first
`xml_size` bytes) into the caller's buffer, sets `*bytes_read = xml_size`,
shifts the scratch buffer past the envelope and returns `SUCCESS`; when the
caller's buffer is smaller than the envelope it returns
`INVALID_PARAMETER`, leaving the scratch buffer (and `*bytes_read`)
untouched rather than truncating. -/
theorem c8_response_envelope_copy
    (buf : List Nat) (dst0 : Nat → Nat) (size xml_size tagOff : Nat)
    (vOff : Option Nat) (fuel fuel2 : Nat)
    (hparse : response_xml_parse fuel (listFn buf) buf.length =
      some (xml_size, some tagOff, vOff))
    (hnz : xml_size ≠ 0)
    (htag : (buf.drop tagOff).take 8 =
      [114, 101, 115, 112, 111, 110, 115, 101]) :
    (xml_size ≤ size →
      fh_rx_dispatch buf dst0 size xml_size tagOff vOff fuel2 =
        ⟨some .SUCCESS, xml_size, buf.drop xml_size,
          (memscpyFn dst0 0 size buf xml_size).1⟩ ∧
      fnToList (memscpyFn dst0 0 size buf xml_size).1 xml_size =
        buf.take xml_size) ∧
    (size < xml_size →
      fh_rx_dispatch buf dst0 size xml_size tagOff vOff fuel2 =
        ⟨some .INVALID_PARAMETER, 0, buf,
          (memscpyFn dst0 0 size buf xml_size).1⟩) := by
  have hlen : xml_size ≤ buf.length :=
    response_xml_parse_ret_le fuel (listFn buf) buf.length xml_size _ _ hparse hnz
  have hlog : ¬ (buf.drop tagOff).take 3 = [108, 111, 103] := by
    have h38 : ((buf.drop tagOff).take 8).take 3 = (buf.drop tagOff).take 3 := by
      rw [List.take_take]
      norm_num
    rw [← h38, htag]
    decide
  constructor
  · intro hle
    constructor
    · rw [fh_rx_dispatch.eq_def, if_neg hlog, if_pos htag]
      rw [if_neg (show ¬ (if size ≤ xml_size then size else xml_size) <
          xml_size by
        rcases le_or_lt size xml_size with h | h
        · rw [if_pos h]
          omega
        · rw [if_neg (by omega)]
          omega)]
    · have hlen' : (buf.take xml_size).length = xml_size := by
        rw [List.length_take]
        omega
      rw [show fnToList (memscpyFn dst0 0 size buf xml_size).1 xml_size =
          fnToList (memscpyFn dst0 0 size buf xml_size).1
            (buf.take xml_size).length by rw [hlen']]
      refine fnToList_eq_of_getD _ _ ?_
      intro i hi
      rw [hlen'] at hi
      simp only [memscpyFn]
      rw [show (if size ≤ xml_size then size else xml_size) = xml_size by
        rcases le_or_lt size xml_size with h | h
        · rw [if_pos h]
          omega
        · rw [if_neg (by omega)]]
      rw [if_pos (by omega), Nat.sub_zero, List.getD_eq_getElem?_getD,
        List.getD_eq_getElem?_getD (l := buf.take xml_size), List.getElem?_take,
        if_pos hi]
  · intro hlt
    rw [fh_rx_dispatch.eq_def, if_neg hlog, if_pos htag]
    rw [if_pos (show (if size ≤ xml_size then size else xml_size) < xml_size by
      rw [if_pos (by omega)]
      omega)]

set_option maxRecDepth 8192 in
/-- Witness for C8 on the concrete envelope
`<?xml ><data><response value="ACK" /></data>` followed by 5 extra bytes,
with a 64-byte caller buffer. -/
theorem c8_response_envelope_copy_witness :
    (response_xml_parse 100 (listFn ([60, 63, 120, 109, 108, 32, 62, 60, 100, 97, 116, 97, 62, 60, 114, 101,
      115, 112, 111, 110, 115, 101, 32, 118, 97, 108, 117, 101, 61, 34, 65, 67,
      75, 34, 32, 47, 62, 60, 47, 100, 97, 116, 97, 62, 69, 88, 84, 82, 65] : List Nat)) ([60, 63, 120, 109, 108, 32, 62, 60, 100, 97, 116, 97, 62, 60, 114, 101,
      115, 112, 111, 110, 115, 101, 32, 118, 97, 108, 117, 101, 61, 34, 65, 67,
      75, 34, 32, 47, 62, 60, 47, 100, 97, 116, 97, 62, 69, 88, 84, 82, 65] : List Nat).length =
        some (44, some 14, some 30) ∧
      (44 : Nat) ≠ 0 ∧
      (([60, 63, 120, 109, 108, 32, 62, 60, 100, 97, 116, 97, 62, 60, 114, 101,
      115, 112, 111, 110, 115, 101, 32, 118, 97, 108, 117, 101, 61, 34, 65, 67,
      75, 34, 32, 47, 62, 60, 47, 100, 97, 116, 97, 62, 69, 88, 84, 82, 65] : List Nat).drop 14).take 8 =
        [114, 101, 115, 112, 111, 110, 115, 101]) ∧
    ((44 ≤ 64 →
      fh_rx_dispatch ([60, 63, 120, 109, 108, 32, 62, 60, 100, 97, 116, 97, 62, 60, 114, 101,
      115, 112, 111, 110, 115, 101, 32, 118, 97, 108, 117, 101, 61, 34, 65, 67,
      75, 34, 32, 47, 62, 60, 47, 100, 97, 116, 97, 62, 69, 88, 84, 82, 65] : List Nat) (fun _ => 0) 64 44 14 (some 30) 100 =
        ⟨some .SUCCESS, 44, ([60, 63, 120, 109, 108, 32, 62, 60, 100, 97, 116, 97, 62, 60, 114, 101,
      115, 112, 111, 110, 115, 101, 32, 118, 97, 108, 117, 101, 61, 34, 65, 67,
      75, 34, 32, 47, 62, 60, 47, 100, 97, 116, 97, 62, 69, 88, 84, 82, 65] : List Nat).drop 44,
          (memscpyFn (fun _ => 0) 0 64 ([60, 63, 120, 109, 108, 32, 62, 60, 100, 97, 116, 97, 62, 60, 114, 101,
      115, 112, 111, 110, 115, 101, 32, 118, 97, 108, 117, 101, 61, 34, 65, 67,
      75, 34, 32, 47, 62, 60, 47, 100, 97, 116, 97, 62, 69, 88, 84, 82, 65] : List Nat) 44).1⟩ ∧
      fnToList (memscpyFn (fun _ => 0) 0 64 ([60, 63, 120, 109, 108, 32, 62, 60, 100, 97, 116, 97, 62, 60, 114, 101,
      115, 112, 111, 110, 115, 101, 32, 118, 97, 108, 117, 101, 61, 34, 65, 67,
      75, 34, 32, 47, 62, 60, 47, 100, 97, 116, 97, 62, 69, 88, 84, 82, 65] : List Nat) 44).1 44 =
        ([60, 63, 120, 109, 108, 32, 62, 60, 100, 97, 116, 97, 62, 60, 114, 101,
      115, 112, 111, 110, 115, 101, 32, 118, 97, 108, 117, 101, 61, 34, 65, 67,
      75, 34, 32, 47, 62, 60, 47, 100, 97, 116, 97, 62, 69, 88, 84, 82, 65] : List Nat).take 44) ∧
    (64 < 44 →
      fh_rx_dispatch ([60, 63, 120, 109, 108, 32, 62, 60, 100, 97, 116, 97, 62, 60, 114, 101,
      115, 112, 111, 110, 115, 101, 32, 118, 97, 108, 117, 101, 61, 34, 65, 67,
      75, 34, 32, 47, 62, 60, 47, 100, 97, 116, 97, 62, 69, 88, 84, 82, 65] : List Nat) (fun _ => 0) 64 44 14 (some 30) 100 =
        ⟨some .INVALID_PARAMETER, 0, ([60, 63, 120, 109, 108, 32, 62, 60, 100, 97, 116, 97, 62, 60, 114, 101,
      115, 112, 111, 110, 115, 101, 32, 118, 97, 108, 117, 101, 61, 34, 65, 67,
      75, 34, 32, 47, 62, 60, 47, 100, 97, 116, 97, 62, 69, 88, 84, 82, 65] : List Nat),
          (memscpyFn (fun _ => 0) 0 64 ([60, 63, 120, 109, 108, 32, 62, 60, 100, 97, 116, 97, 62, 60, 114, 101,
      115, 112, 111, 110, 115, 101, 32, 118, 97, 108, 117, 101, 61, 34, 65, 67,
      75, 34, 32, 47, 62, 60, 47, 100, 97, 116, 97, 62, 69, 88, 84, 82, 65] : List Nat) 44).1⟩)) :=
  ⟨⟨by decide, by decide, by decide⟩,
    c8_response_envelope_copy ([60, 63, 120, 109, 108, 32, 62, 60, 100, 97, 116, 97, 62, 60, 114, 101,
      115, 112, 111, 110, 115, 101, 32, 118, 97, 108, 117, 101, 61, 34, 65, 67,
      75, 34, 32, 47, 62, 60, 47, 100, 97, 116, 97, 62, 69, 88, 84, 82, 65] : List Nat) (fun _ => 0) 64 44 14 (some 30)
      100 100 (by decide) (by decide) (by decide)⟩

theorem ringStep_inv (st : Ring) (hinv : RingInv st) (op : RingOp)
    (harg : op.arg < 2 ^ 32) : RingInv (ringStep st op) := by
  obtain ⟨h1, h2, h3⟩ := hinv
  have hlen32 : st.len ≤ ONE_MEGA_BYTE := by
    rw [h1]
    simp only [ONE_MEGA_BYTE] at h3 ⊢
    omega
  cases op with
  | add l =>
    simp only [RingOp.arg] at harg
    rw [ringStep, add_data_to_buffer_model]
    by_cases hg : (l : ℤ) < (u32sub ONE_MEGA_BYTE st.len : ℤ) - (st.endOff : ℤ)
    · rw [if_pos hg]
      rw [u32sub_small _ _ hlen32 (by simp [ONE_MEGA_BYTE])] at hg
      have hfit : l + st.len + st.endOff < ONE_MEGA_BYTE := by
        simp only [ONE_MEGA_BYTE] at hg h3 ⊢
        omega
      have hmod : (st.len + l) % 2 ^ 32 = st.len + l := by
        apply Nat.mod_eq_of_lt
        simp only [ONE_MEGA_BYTE] at hfit
        omega
      refine ⟨?_, ?_, ?_⟩
      · dsimp only
        rw [hmod]
        omega
      · dsimp only
        omega
      · dsimp only
        simp only [ONE_MEGA_BYTE] at hfit ⊢
        omega
    · rw [if_neg hg]
      exact ⟨h1, h2, h3⟩
  | get r =>
    rw [ringStep, get_data_from_buffer_model]
    by_cases hr : r < st.len
    · rw [if_pos hr]
      rw [u32sub_small _ _ (by omega)
        (by simp only [ONE_MEGA_BYTE] at hlen32; omega)]
      refine ⟨?_, ?_, ?_⟩
      · dsimp only
        omega
      · dsimp only
        omega
      · dsimp only
        exact h3
    · rw [if_neg hr]
      refine ⟨rfl, ?_, ?_⟩ <;> dsimp only <;> simp [ONE_MEGA_BYTE]

theorem ringRun_inv (ops : List RingOp) (st : Ring) (hinv : RingInv st)
    (hargs : ∀ op ∈ ops, op.arg < 2 ^ 32) : RingInv (ringRun st ops) := by
  induction ops generalizing st with
  | nil => exact hinv
  | cons op ops ih =>
    rw [show ringRun st (op :: ops) = ringRun (ringStep st op) ops from rfl]
    exact ih _ (ringStep_inv st hinv op (hargs op (by simp)))
      (fun o ho => hargs o (by simp [ho]))

/-- C9: from the initial state, every interleaving of bounded-argument
`add_data_to_buffer` / `get_data_from_buffer` operations preserves
`buffered_length = end_ptr - start_ptr` with
`base ≤ start_ptr ≤ end_ptr ≤ base + 1 MiB`; an add that does not fit
(`length + buffered_length + end_offset ≥ 1 MiB`) returns `FALSE` leaving
the ring unchanged; and a get returns `min(requested, buffered_length)`
bytes and resets both pointers to the base exactly when it empties the
ring. -/
theorem c9_ring_invariant :
    (RingInv ringInit ∧
      ∀ ops : List RingOp, (∀ op ∈ ops, op.arg < 2 ^ 32) →
        RingInv (ringRun ringInit ops)) ∧
    (∀ (st : Ring) (l : Nat), RingInv st → l < 2 ^ 32 →
      ¬ l + st.len + st.endOff < ONE_MEGA_BYTE →
      add_data_to_buffer_model st l = (st, false)) ∧
    (∀ (st : Ring) (r : Nat), RingInv st →
      (get_data_from_buffer_model st r).2 = min r st.len ∧
      (((get_data_from_buffer_model st r).1.startOff = 0 ∧
        (get_data_from_buffer_model st r).1.endOff = 0) ↔
        (get_data_from_buffer_model st r).1.len = 0)) := by
  refine ⟨⟨by decide, fun ops h => ringRun_inv ops ringInit (by decide) h⟩,
    fun st l hinv hl hnofit => ?_, fun st r hinv => ?_⟩
  · obtain ⟨h1, h2, h3⟩ := hinv
    have hlen32 : st.len ≤ ONE_MEGA_BYTE := by
      simp only [ONE_MEGA_BYTE] at h3 ⊢
      omega
    rw [add_data_to_buffer_model,
      if_neg (show ¬ (l : ℤ) <
          (u32sub ONE_MEGA_BYTE st.len : ℤ) - (st.endOff : ℤ) by
        rw [u32sub_small _ _ hlen32 (by simp [ONE_MEGA_BYTE])]
        simp only [ONE_MEGA_BYTE] at hnofit ⊢
        omega)]
  · obtain ⟨h1, h2, h3⟩ := hinv
    have hlen32 : st.len < 2 ^ 32 := by
      simp only [ONE_MEGA_BYTE] at h3
      omega
    by_cases hr : r < st.len
    · rw [get_data_from_buffer_model, if_pos hr]
      refine ⟨by dsimp only; omega, ?_⟩
      dsimp only
      rw [u32sub_small _ _ (by omega) hlen32]
      omega
    · rw [get_data_from_buffer_model, if_neg hr]
      exact ⟨by dsimp only; omega, by dsimp only; omega⟩

/-- Witness for C9: a concrete op interleaving from the initial state, a
concrete non-fitting add on the state `(start=2, end=5, len=3)`, and a
concrete partial get on that state. -/
theorem c9_ring_invariant_witness :
    ((∀ op ∈ ([.add 10, .get 4, .add 1048570, .get 0] : List RingOp),
        op.arg < 2 ^ 32) ∧
      RingInv (⟨2, 5, 3⟩ : Ring) ∧ (1048571 : Nat) < 2 ^ 32 ∧
      ¬ 1048571 + (⟨2, 5, 3⟩ : Ring).len + (⟨2, 5, 3⟩ : Ring).endOff <
        ONE_MEGA_BYTE) ∧
    (RingInv (ringRun ringInit [.add 10, .get 4, .add 1048570, .get 0]) ∧
      add_data_to_buffer_model ⟨2, 5, 3⟩ 1048571 = (⟨2, 5, 3⟩, false) ∧
      (get_data_from_buffer_model ⟨2, 5, 3⟩ 2).2 =
        min 2 (⟨2, 5, 3⟩ : Ring).len ∧
      (((get_data_from_buffer_model ⟨2, 5, 3⟩ 2).1.startOff = 0 ∧
        (get_data_from_buffer_model ⟨2, 5, 3⟩ 2).1.endOff = 0) ↔
        (get_data_from_buffer_model ⟨2, 5, 3⟩ 2).1.len = 0)) :=
  ⟨⟨by decide, by decide, by decide, by decide⟩,
    c9_ring_invariant.1.2 [.add 10, .get 4, .add 1048570, .get 0] (by decide),
    c9_ring_invariant.2.1 ⟨2, 5, 3⟩ 1048571 (by decide) (by decide) (by decide),
    (c9_ring_invariant.2.2 ⟨2, 5, 3⟩ 2 (by decide)).1,
    (c9_ring_invariant.2.2 ⟨2, 5, 3⟩ 2 (by decide)).2⟩

/-- C10: on an initialized session (`session_transport_type ≠ NONE`),
`fh_transport_deinit` returns `SUCCESS` with the state unchanged and no
call to the transport's `close`; the state then stays unchanged under any
further sequence of init/deinit calls, and every later `fh_transport_init`,
with any type, returns `INVALID_PARAMETER`. -/
theorem c10_deinit_no_effect (st : TransportSt)
    (hinit : st.session_transport_type ≠ .FH_TRANSPORT_NONE) :
    fh_transport_deinit_model st = (st, .SUCCESS, []) ∧
    (∀ ops : List TOp, tRun st ops = st) ∧
    (∀ (ops : List TOp) (ty : TransportType),
      (fh_transport_init_model (tRun st ops) ty).2 = .INVALID_PARAMETER) := by
  have hstep : ∀ op, tStep st op = st := by
    intro op
    cases op with
    | init ty =>
      rw [tStep, fh_transport_init_model.eq_def, if_pos hinit]
    | deinit =>
      rw [tStep, fh_transport_deinit_model, if_neg hinit]
  have hrun : ∀ ops : List TOp, tRun st ops = st := by
    intro ops
    induction ops with
    | nil => rfl
    | cons op ops ih =>
      rw [show tRun st (op :: ops) = tRun (tStep st op) ops from rfl, hstep op, ih]
  refine ⟨by rw [fh_transport_deinit_model, if_neg hinit], hrun, ?_⟩
  intro ops ty
  rw [hrun ops, fh_transport_init_model.eq_def, if_pos hinit]

/-- Witness for C10 on an HSUART session, with a later re-init attempt. -/
theorem c10_deinit_no_effect_witness :
    (⟨.FH_TRANSPORT_HSUART⟩ : TransportSt).session_transport_type ≠
      .FH_TRANSPORT_NONE ∧
    (fh_transport_deinit_model ⟨.FH_TRANSPORT_HSUART⟩ =
      (⟨.FH_TRANSPORT_HSUART⟩, .SUCCESS, []) ∧
    (∀ ops : List TOp, tRun ⟨.FH_TRANSPORT_HSUART⟩ ops =
      ⟨.FH_TRANSPORT_HSUART⟩) ∧
    (∀ (ops : List TOp) (ty : TransportType),
      (fh_transport_init_model (tRun ⟨.FH_TRANSPORT_HSUART⟩ ops) ty).2 =
        .INVALID_PARAMETER)) :=
  ⟨by decide, c10_deinit_no_effect ⟨.FH_TRANSPORT_HSUART⟩ (by decide)⟩

end SakuraEDL
